import Mathlib

/-!
# Verification of the ytd media pipeline

Shallow embedding of the pairing-and-resume core of the ytd repository:
the filename pair matchers (`vidMerger.js`, `merger.js`), the progress
stores and stage runners (`youtubescrape.js`, `s3Uploader.js` and the
unnamed uploader/orchestrator variants), together with proofs of the
specification's claims about them.

Filenames are modelled as `String`; external effects (filesystem checks,
network downloads, uploads, hashing, wall-clock time) are passed in as
explicit oracle parameters, so every function here is a pure, executable
translation of the corresponding JavaScript.
-/

namespace Ytd

/-! ## String helpers (Node `path` / `String.prototype` operations)

All character-level work happens on `List Char` with structural recursion,
so that every definition evaluates by kernel reduction on concrete inputs;
`String` is kept at the interfaces. -/

/-- `String.prototype.split(sep)` on character lists, for a non-empty
separator.  `fuel` bounds the number of characters still to be processed and
only serves to make the recursion structural; the wrapper passes
`l.length + 1`, which always suffices because every step consumes at least
one character, so the fuel-exhaustion fallback is unreachable. -/
def splitOnListAux (sep : List Char) : Nat → List Char → List Char → List (List Char)
  | 0, l, acc => [acc.reverse ++ l]
  | fuel + 1, l, acc =>
    match l with
    | [] => [acc.reverse]
    | c :: cs =>
      if sep.isPrefixOf (c :: cs) then
        acc.reverse :: splitOnListAux sep fuel ((c :: cs).drop sep.length) []
      else
        splitOnListAux sep fuel cs (c :: acc)

/-- `s.split(sep)` for a non-empty separator (every use below has one);
an empty separator degenerates to no split, which is never exercised. -/
def splitOnList (sep l : List Char) : List (List Char) :=
  if sep.isEmpty then [l] else splitOnListAux sep (l.length + 1) l []

/-- `s.includes(sep)` for a non-empty `sep`. -/
def containsSub (sep l : List Char) : Bool :=
  (splitOnList sep l).length > 1

def charsToLower (l : List Char) : List Char := l.map Char.toLower

/-- `s.slice(0, -n)` / `dropRight` on character lists. -/
def dropRightList (l : List Char) (n : Nat) : List Char :=
  l.take (l.length - n)

/-- `String.prototype.trim()`: drop leading and trailing whitespace. -/
def trimChars (l : List Char) : List Char :=
  ((l.dropWhile Char.isWhitespace).reverse.dropWhile Char.isWhitespace).reverse

/-- Model of Node `path.extname` restricted to plain basenames (the matchers
are only ever called on directory-entry names, which contain no separators):
the suffix starting at the last dot, or `""` when there is no dot or the
only dot is the leading character (as for dotfiles). -/
def extname (f : String) : String :=
  match splitOnList ['.'] f.data with
  | [] => ""
  | [_] => ""
  | [[], _] => ""
  | ps => String.mk ('.' :: ps.getLastD [])

/-- Model of `path.basename(filename, path.extname(filename))`. -/
def basenameNoExt (f : String) : String :=
  String.mk (dropRightList f.data (extname f).data.length)

/-- `path.extname(file).toLowerCase()`, the classification key used by both
matchers. -/
def lowerExt (file : String) : String :=
  String.mk (charsToLower (extname file).data)

/-- One case-insensitive `.replace(/<suf>$/i, '')` step; `suf` is given in
lower case, matching the JS regexes `_video$`, `_audio$`, `video$`, `audio$`. -/
def stripSuffixCI (suf : List Char) (s : List Char) : List Char :=
  if List.isSuffixOf suf (charsToLower s) then dropRightList s suf.length else s

/-- Model of `.replace(/[_\s]+$/, '')`: drop trailing underscores and
whitespace. -/
def dropTrailingSep (l : List Char) : List Char :=
  (l.reverse.dropWhile (fun c => c = '_' || c.isWhitespace)).reverse

/-- `cleanFilename` from `vidMerger.js`: strip the extension, the role
suffixes `_video`/`_audio`/`video`/`audio` (case-insensitively, in this
order), trim, and drop trailing underscores/spaces. -/
def cleanFilename (filename : String) : String :=
  let nameWithoutExt := (basenameNoExt filename).data
  let cleanName :=
    trimChars
      (stripSuffixCI ['a', 'u', 'd', 'i', 'o']
        (stripSuffixCI ['v', 'i', 'd', 'e', 'o']
          (stripSuffixCI ['_', 'a', 'u', 'd', 'i', 'o']
            (stripSuffixCI ['_', 'v', 'i', 'd', 'e', 'o'] nameWithoutExt))))
  String.mk (dropTrailingSep cleanName)

/-- `generateSearchTerms` from `vidMerger.js`: the full clean name followed
by progressively shorter prefixes, split at the first delimiter (from
`['_', '-', ' ', '__', '--']`) that occurs in the name, keeping only terms
longer than 3 characters that are not already present. -/
def generateSearchTerms (cleanName : String) : List String :=
  let terms := [cleanName]
  let delims : List (List Char) := [['_'], ['-'], [' '], ['_', '_'], ['-', '-']]
  match delims.find? (fun d => containsSub d cleanName.data) with
  | none => terms
  | some d =>
    let parts := splitOnList d cleanName.data
    -- JS: for (let i = parts.length - 1; i >= 1; i--)
    let idxs := ((List.range parts.length).reverse).dropLast
    idxs.foldl (fun acc i =>
      let term := String.mk (trimChars (List.intercalate d (parts.take i)))
      if 3 < term.length && !(acc.contains term) then acc ++ [term] else acc)
      terms

end Ytd

namespace VidMerger

open Ytd

def VIDEO_EXTENSIONS : List String := [".mp4", ".mov", ".avi", ".mkv", ".webm", ".m4v"]
def AUDIO_EXTENSIONS : List String := [".m4a", ".mp3", ".aac", ".wav", ".webm"]

def OUTPUT_FOLDER : String := "./merged"

/-- The per-file record built at the top of `findMatchingPairs`. -/
structure FileInfo where
  filename : String
  cleanName : String
  searchTerms : List String
  deriving Repr, DecidableEq

def mkFileInfo (file : String) : FileInfo :=
  { filename := file
    cleanName := cleanFilename file
    searchTerms := generateSearchTerms (cleanFilename file) }

/-- The body of the classifying `files.forEach`: video extensions are tested
first, so a file whose extension is in both lists (`.webm`) is always
classified as video. -/
def classifyStep (acc : List FileInfo × List FileInfo) (file : String) :
    List FileInfo × List FileInfo :=
  let ext := lowerExt file
  if VIDEO_EXTENSIONS.contains ext then (acc.1 ++ [mkFileInfo file], acc.2)
  else if AUDIO_EXTENSIONS.contains ext then (acc.1, acc.2 ++ [mkFileInfo file])
  else acc

def classifyFiles (files : List String) : List FileInfo × List FileInfo :=
  files.foldl classifyStep ([], [])

/-- `bestMatch`/`matchLevel` update: replace the current best only on a
strictly smaller combined level (first-encountered match wins ties). -/
def updateBest (cand : FileInfo × Nat) (st : Option (FileInfo × Nat)) :
    Option (FileInfo × Nat) :=
  match st with
  | none => some cand
  | some (b, lvl) => if cand.2 < lvl then some cand else some (b, lvl)

/-- The inner `audioFiles.forEach`/`audioFile.searchTerms.forEach` scan for
one fixed video search term `videoTerm` at index `t`. -/
def scanAudio (used : List String) (videoTerm : String) (t : Nat)
    (audioFiles : List FileInfo) (st : Option (FileInfo × Nat)) :
    Option (FileInfo × Nat) :=
  audioFiles.foldl
    (fun st audioFile =>
      if used.contains audioFile.filename then st
      else
        audioFile.searchTerms.enum.foldl
          (fun st p =>
            if videoTerm = p.2 then updateBest (audioFile, t + p.1) st else st)
          st)
    st

/-- The `videoFile.searchTerms.forEach` loop: the guard
`if (bestMatch) return` means later video terms are skipped as soon as any
match has been found. -/
def findBestMatch (used : List String) (video : FileInfo)
    (audioFiles : List FileInfo) : Option (FileInfo × Nat) :=
  video.searchTerms.enum.foldl
    (fun st p =>
      match st with
      | some _ => st
      | none => scanAudio used p.2 p.1 audioFiles none)
    none

def mapInvalidChar (c : Char) : Char :=
  if ['<', '>', ':', '"', '/', '\\', '|', '?', '*'].contains c then '_' else c

/-- Replace each maximal run of characters satisfying `p` by the single
character `repl` (models `.replace(/\s+/g,'_')` and `.replace(/_+/g,'_')`). -/
def squashRuns (p : Char → Bool) (repl : Char) (s : List Char) : List Char :=
  (s.foldl
    (fun (acc : List Char × Bool) c =>
      if p c then (if acc.2 then acc else (acc.1 ++ [repl], true))
      else (acc.1 ++ [c], false))
    ([], false)).1

/-- The output `baseName` sanitisation chain in `findMatchingPairs`. -/
def safeBaseName (cleanName : String) : String :=
  let s1 := cleanName.data.map mapInvalidChar
  let s2 := squashRuns (fun c => c.isWhitespace) '_' s1
  let s3 := squashRuns (fun c => c = '_') '_' s2
  -- .replace(/^_|_$/g, ''): after the collapses there is at most one
  -- leading and one trailing underscore, removed here
  let s4 := match s3 with
    | '_' :: rest => rest
    | other => other
  String.mk (if s4.getLast? = some '_' then s4.dropLast else s4)

/-- One element of the `pairs` array returned by `findMatchingPairs`. -/
structure Pair where
  baseName : String
  video : String
  audio : String
  output : String
  outputPath : String
  alreadyExists : Bool
  matchLevel : Nat
  videoCleanName : String
  audioCleanName : String
  deriving Repr, DecidableEq

/-- One iteration of the outer `videoFiles.forEach` matching loop; the state
is the `pairs` accumulator together with the `usedFiles` set (modelled as the
list of filenames inserted so far).  `alreadyMerged` is the filesystem oracle
behind `isAlreadyMerged(outputPath)`. -/
def matchStep (alreadyMerged : String → Bool) (audioFiles : List FileInfo)
    (st : List Pair × List String) (videoFile : FileInfo) :
    List Pair × List String :=
  let (pairs, used) := st
  if used.contains videoFile.filename then st
  else
    match findBestMatch used videoFile audioFiles with
    | none => st
    | some (bestMatch, matchLevel) =>
      let baseName := safeBaseName videoFile.cleanName
      let output := baseName ++ "_merged.mp4"
      let outputPath := OUTPUT_FOLDER ++ "/" ++ output
      (pairs ++
        [{ baseName := baseName
           video := videoFile.filename
           audio := bestMatch.filename
           output := output
           outputPath := outputPath
           alreadyExists := alreadyMerged outputPath
           matchLevel := matchLevel
           videoCleanName := videoFile.cleanName
           audioCleanName := bestMatch.cleanName }],
       used ++ [videoFile.filename, bestMatch.filename])

/-- `findMatchingPairs` from `vidMerger.js`, returning the pairs together
with the final `usedFiles` set (needed below for the unmatched-file
report). -/
def findMatchingPairsFull (alreadyMerged : String → Bool) (files : List String) :
    List Pair × List String :=
  let (videoFiles, audioFiles) := classifyFiles files
  videoFiles.foldl (matchStep alreadyMerged audioFiles) ([], [])

def findMatchingPairs (alreadyMerged : String → Bool) (files : List String) :
    List Pair :=
  (findMatchingPairsFull alreadyMerged files).1

/-- The `unusedVideos` report printed at the end of `findMatchingPairs`. -/
def unusedVideos (alreadyMerged : String → Bool) (files : List String) :
    List FileInfo :=
  let (videoFiles, _) := classifyFiles files
  let used := (findMatchingPairsFull alreadyMerged files).2
  videoFiles.filter (fun v => !(used.contains v.filename))

/-- The `unusedAudios` report printed at the end of `findMatchingPairs`. -/
def unusedAudios (alreadyMerged : String → Bool) (files : List String) :
    List FileInfo :=
  let (_, audioFiles) := classifyFiles files
  let used := (findMatchingPairsFull alreadyMerged files).2
  audioFiles.filter (fun a => !(used.contains a.filename))

end VidMerger

namespace Merger

open Ytd

def videoExtensions : List String := [".mp4", ".mov", ".avi", ".mkv", ".webm", ".m4v"]
def audioExtensions : List String := [".m4a", ".mp3", ".aac", ".wav", ".webm"]

/-- `VideoMerger.getBaseName`: strip the extension, then a (case-sensitive)
trailing `_video` or `_audio` (`slice(0, -6)`). -/
def getBaseName (filename : String) : String :=
  let nameWithoutExt := (basenameNoExt filename).data
  if List.isSuffixOf ['_', 'v', 'i', 'd', 'e', 'o'] nameWithoutExt then
    String.mk (dropRightList nameWithoutExt 6)
  else if List.isSuffixOf ['_', 'a', 'u', 'd', 'i', 'o'] nameWithoutExt then
    String.mk (dropRightList nameWithoutExt 6)
  else String.mk nameWithoutExt

/-- One `fileMap[baseName]` entry. -/
structure MapEntry where
  video : Option String
  audio : Option String
  deriving Repr, DecidableEq

/-- The body of the grouping `files.forEach`: video extensions are tested
first, so `.webm` files always land in the `video` slot, and a later file
with the same base name and media class overwrites the earlier one. -/
def setEntry (ext file : String) (e : MapEntry) : MapEntry :=
  if videoExtensions.contains ext then { e with video := some file }
  else if audioExtensions.contains ext then { e with audio := some file }
  else e

/-- Update the association-list model of `fileMap` in place, preserving the
key insertion order of the JS object. -/
def updateMap (baseName ext file : String) :
    List (String × MapEntry) → List (String × MapEntry)
  | [] => [(baseName, setEntry ext file ⟨none, none⟩)]
  | (k, e) :: rest =>
    if k = baseName then (k, setEntry ext file e) :: rest
    else (k, e) :: updateMap baseName ext file rest

def buildFileMap (files : List String) : List (String × MapEntry) :=
  files.foldl
    (fun m file => updateMap (getBaseName file) (lowerExt file) file m)
    []

/-- One element of the `pairs` array of `VideoMerger.findMatchingPairs`. -/
structure MPair where
  baseName : String
  video : String
  audio : String
  output : String
  deriving Repr, DecidableEq

/-- `VideoMerger.findMatchingPairs`: group by base name, then keep the
entries that have both a video and an audio slot filled. -/
def findMatchingPairs (files : List String) : List MPair :=
  (buildFileMap files).filterMap
    (fun ke =>
      match ke.2.video, ke.2.audio with
      | some v, some a =>
        some { baseName := ke.1, video := v, audio := a, output := ke.1 ++ ".mp4" }
      | _, _ => none)

/-- `VideoMerger.findAudioOnlyFiles`. -/
def findAudioOnlyFiles (files : List String) (pairs : List MPair) : List String :=
  let pairedBaseNames := pairs.map (·.baseName)
  let audioFiles := files.filter (fun file => audioExtensions.contains (lowerExt file))
  audioFiles.filter (fun file => !(pairedBaseNames.contains (getBaseName file)))

/-- `VideoMerger.findVideoOnlyFiles`. -/
def findVideoOnlyFiles (files : List String) (pairs : List MPair) : List String :=
  let pairedBaseNames := pairs.map (·.baseName)
  let videoFiles := files.filter (fun file => videoExtensions.contains (lowerExt file))
  videoFiles.filter (fun file => !(pairedBaseNames.contains (getBaseName file)))

end Merger

namespace Ytd

/-- Association-list model of a JS object used as a string-keyed map:
`obj[k] = v` replaces the value in place when the key exists and appends the
key otherwise, preserving key insertion order. -/
def setAssoc {α : Type} : List (String × α) → String → α → List (String × α)
  | [], name, v => [(name, v)]
  | (k, e) :: rest, name, v =>
    if k = name then (k, v) :: rest else (k, e) :: setAssoc rest name v

/-- `obj[k]` lookup on the association-list model. -/
def lookupAssoc {α : Type} (m : List (String × α)) (k : String) : Option α :=
  (m.find? (fun kv => kv.1 == k)).map (·.2)

end Ytd

namespace YtDl

/-!
Model of the `YouTubeDownloader` class of `youtubescrape.js`.  Network
calls (`getPlaylistUrls`, `getVideoInfo`, `downloadSingleVideo`) are
represented by parameters: the playlist's URL list is an input, and a
per-index `attempt` oracle gives the combined outcome of fetching the video
info and downloading the streams.  Wall-clock timestamp fields
(`startedAt`, `completedAt`, `lastUpdated`, record timestamps) and the
inter-download delay are omitted: they carry no decision-relevant state.
`saveProgress` persists the in-memory state unchanged, so persistence is
the identity on this model.
-/

/-- One entry of `downloadedVideos` / `skippedVideos` / `failedVideos`. -/
structure VideoRecord where
  index : Nat
  url : String
  filename : String
  status : String
  deriving Repr, DecidableEq

/-- The per-playlist progress object created by `getPlaylistProgress`. -/
structure PlaylistProgress where
  completed : Bool
  lastVideoIndex : Nat
  downloadedVideos : List VideoRecord
  skippedVideos : List VideoRecord
  failedVideos : List VideoRecord
  totalVideos : Nat
  deriving Repr, DecidableEq

def freshPlaylistProgress : PlaylistProgress :=
  { completed := false
    lastVideoIndex := 0
    downloadedVideos := []
    skippedVideos := []
    failedVideos := []
    totalVideos := 0 }

/-- The global progress document backing `download_progress.json`. -/
structure GlobalProgress where
  playlists : List (String × PlaylistProgress)
  totalDownloaded : Nat
  deriving Repr, DecidableEq

def freshGlobalProgress : GlobalProgress :=
  { playlists := [], totalDownloaded := 0 }

/-- `YouTubeDownloader.loadProgress`.  `fileExists` models
`fs.existsSync(this.progressFile)`; `parsed` is `some data` when reading and
`JSON.parse` succeed and `none` when they throw.  The second component of
the result records whether the catch branch logged its warning
(`Could not load progress file, starting fresh`). -/
def loadProgress (fileExists : Bool) (parsed : Option GlobalProgress) :
    GlobalProgress × Bool :=
  if fileExists then
    match parsed with
    | some data => (data, false)
    | none => (freshGlobalProgress, true)
  else
    (freshGlobalProgress, false)

/-- `YouTubeDownloader.isVideoAlreadyDownloaded`. -/
def isVideoAlreadyDownloaded (p : PlaylistProgress) (videoIndex : Nat) : Bool :=
  p.downloadedVideos.any (fun video => video.index == videoIndex)

/-- `YouTubeDownloader.markVideoDownloaded`, restricted to the per-playlist
progress record (the global `totalDownloaded` counter is not modelled). -/
def markVideoDownloaded (p : PlaylistProgress) (videoIndex : Nat)
    (videoUrl filename status : String) : PlaylistProgress :=
  let videoInfo : VideoRecord :=
    { index := videoIndex, url := videoUrl, filename := filename, status := status }
  if status = "downloaded" then
    { p with
      downloadedVideos := p.downloadedVideos ++ [videoInfo]
      lastVideoIndex := max p.lastVideoIndex videoIndex }
  else if status = "skipped" then
    { p with skippedVideos := p.skippedVideos ++ [videoInfo] }
  else if status = "failed" then
    { p with failedVideos := p.failedVideos ++ [videoInfo] }
  else p

/-- `YouTubeDownloader.markPlaylistCompleted`. -/
def markPlaylistCompleted (p : PlaylistProgress) : PlaylistProgress :=
  { p with completed := true }

/-- Combined outcome of one loop iteration's external calls:
`getVideoInfo` + `downloadSingleVideo` succeeded (payload: the fetched
title), returned `false` (no HD format, payload: the title), or threw an
error that the loop's `catch` receives. -/
inductive AttemptResult where
  | success : String → AttemptResult
  | noHD : String → AttemptResult
  | thrown : AttemptResult
  deriving Repr, DecidableEq

/-- `String(videoIndex).padStart(3, '0')`. -/
def padIndex (n : Nat) : String :=
  let s := toString n
  if s.length < 3 then String.mk (List.replicate (3 - s.length) '0') ++ s else s

/-- Entry of `playlistConfig` as destructured by `downloadPlaylist`. -/
structure PlaylistConfig where
  name : String
  url : String
  maxVideos : Option Nat
  startIndex : Nat
  enabled : Bool
  deriving Repr, DecidableEq

/-- JS truthiness of the `maxVideos` config value (`null` and `0` are
falsy). -/
def jsTruthy (m : Option Nat) : Bool :=
  match m with
  | none => false
  | some n => n != 0

/-- `videoUrls.slice(resumeIndex, maxVideos ? resumeIndex + maxVideos :
undefined)`. -/
def sliceUrls (urls : List String) (resumeIndex : Nat) (maxVideos : Option Nat) :
    List String :=
  if jsTruthy maxVideos then (urls.drop resumeIndex).take (maxVideos.getD 0)
  else urls.drop resumeIndex

/-- State threaded through the download loop.  `invoked` is instrumentation
(not a field of the source state): it records the video indices for which
the external `getVideoInfo`/`downloadSingleVideo` operations were invoked,
which is the observable the idempotence and isolation claims are about. -/
structure LoopState where
  prog : PlaylistProgress
  successful : Nat
  failed : Nat
  skipped : Nat
  invoked : List Nat
  deriving Repr, DecidableEq

/-- One iteration of the `for (let i = 0; i < filteredUrls.length; i++)`
loop of `downloadPlaylist`; `p` is the pair (i, filteredUrls[i]). -/
def downloadStep (attempt : Nat → AttemptResult) (resumeIndex : Nat)
    (st : LoopState) (p : Nat × String) : LoopState :=
  let videoIndex := resumeIndex + p.1 + 1
  if isVideoAlreadyDownloaded st.prog videoIndex then st
  else
    match attempt videoIndex with
    | .success title =>
      let filename := padIndex videoIndex ++ "_" ++ title
      { st with
        prog := markVideoDownloaded st.prog videoIndex p.2 filename "downloaded"
        successful := st.successful + 1
        invoked := st.invoked ++ [videoIndex] }
    | .noHD title =>
      let filename := padIndex videoIndex ++ "_" ++ title
      { st with
        prog := markVideoDownloaded st.prog videoIndex p.2 filename "skipped"
        skipped := st.skipped + 1
        invoked := st.invoked ++ [videoIndex] }
    | .thrown =>
      { st with
        prog := markVideoDownloaded st.prog videoIndex p.2
          ("error_" ++ toString videoIndex) "failed"
        failed := st.failed + 1
        invoked := st.invoked ++ [videoIndex] }

/-- Result of `downloadPlaylist`: the returned counters together with the
final per-playlist progress and the instrumented invocation list. -/
structure DownloadResult where
  progress : PlaylistProgress
  successful : Nat
  failed : Nat
  skipped : Nat
  invoked : List Nat
  deriving Repr, DecidableEq

/-- `YouTubeDownloader.downloadPlaylist`.  `videoUrls` is the list returned
by `getPlaylistUrls` (network oracle); `playlistProgress` is the record
`getPlaylistProgress(url)` returns for this playlist. -/
def downloadPlaylist (attempt : Nat → AttemptResult) (cfg : PlaylistConfig)
    (playlistProgress : PlaylistProgress) (videoUrls : List String) :
    DownloadResult :=
  if !cfg.enabled then
    { progress := playlistProgress, successful := 0, failed := 0, skipped := 0,
      invoked := [] }
  else if playlistProgress.completed then
    { progress := playlistProgress
      successful := playlistProgress.downloadedVideos.length
      failed := 0, skipped := 0, invoked := [] }
  else if videoUrls.isEmpty then
    { progress := playlistProgress, successful := 0, failed := 0, skipped := 0,
      invoked := [] }
  else
    let prog0 := { playlistProgress with totalVideos := videoUrls.length }
    let resumeIndex := max cfg.startIndex playlistProgress.lastVideoIndex
    let filteredUrls := sliceUrls videoUrls resumeIndex cfg.maxVideos
    let final :=
      filteredUrls.enum.foldl (downloadStep attempt resumeIndex)
        { prog := prog0, successful := 0, failed := 0, skipped := 0, invoked := [] }
    let totalProcessed := final.prog.downloadedVideos.length +
      final.prog.skippedVideos.length + final.prog.failedVideos.length
    let finalProg :=
      if totalProcessed ≥ videoUrls.length ||
          (jsTruthy cfg.maxVideos && totalProcessed ≥ cfg.maxVideos.getD 0) then
        markPlaylistCompleted final.prog
      else final.prog
    { progress := finalProg
      successful := final.successful
      failed := final.failed
      skipped := final.skipped
      invoked := final.invoked }

end YtDl

namespace S3A

/-!
Model of the `S3MediaUploader` class of the unnamed uploader source
(`src/unnamed/part_000`): the variant that moves uploaded files to a
`transferred` folder.  Filesystem and network effects are oracles: `hashOf`
is `generateFileHash`, `uploadOk` is the success of `uploadToS3` and
`moveOk` the success of `moveToTransferred`.  Timestamp fields are omitted;
`saveProgress` persists the in-memory state unchanged.
-/

open Ytd

/-- One `progress.uploadedFiles[filename]` record as written by
`logUpload` (`uploadDate` omitted). -/
structure UploadRecord where
  s3Key : String
  fileSizeBytes : Nat
  fileHash : Option String
  status : String
  bucket : String
  deriving Repr, DecidableEq

/-- `progress.session` (timestamps omitted). -/
structure Session where
  totalFiles : Nat
  completedFiles : Nat
  deriving Repr, DecidableEq

/-- The progress document backing `s3_upload_progress.json`. -/
structure Progress where
  uploadedFiles : List (String × UploadRecord)
  session : Session
  deriving Repr, DecidableEq

def freshProgress : Progress :=
  { uploadedFiles := [], session := { totalFiles := 0, completedFiles := 0 } }

/-- `S3MediaUploader.loadProgress` (part_000 and `s3Uploader.js` share this
code): a missing file or a read/parse failure yields the fresh empty state;
the second component records whether the corruption warning
(`Progress file is corrupted`) was logged. -/
def loadProgress (fileExists : Bool) (parsed : Option Progress) :
    Progress × Bool :=
  if fileExists then
    match parsed with
    | some progress => (progress, false)
    | none => (freshProgress, true)
  else
    (freshProgress, false)

/-- `S3MediaUploader.isAlreadyUploaded` (part_000 variant).  The second
component records whether the changed-hash warning was logged.  `hashOf`
returns `none` when `generateFileHash` fails and returns `null`. -/
def isAlreadyUploaded (progress : Progress) (hashOf : String → Option String)
    (filename : String) (filePath : Option String) : Bool × Bool :=
  match lookupAssoc progress.uploadedFiles filename with
  | none => (false, false)
  | some uploadRecord =>
    match filePath, uploadRecord.fileHash with
    | some fp, some recordHash =>
      (match hashOf fp with
       | some currentHash =>
         if currentHash ≠ recordHash then (false, true)
         else (uploadRecord.status == "completed", false)
       | none => (uploadRecord.status == "completed", false))
    | _, _ => (uploadRecord.status == "completed", false)

/-- One element of the list `getMediaFiles` builds from the source folder. -/
structure MediaFile where
  name : String
  path : String
  size : Nat
  hash : Option String
  deriving Repr, DecidableEq

/-- `S3MediaUploader.logUpload` (part_000 variant). -/
def logUpload (bucketName : String) (p : Progress) (filename s3Key : String)
    (fileSize : Nat) (fileHash : Option String) : Progress :=
  { uploadedFiles :=
      setAssoc p.uploadedFiles filename
        { s3Key := s3Key
          fileSizeBytes := fileSize
          fileHash := fileHash
          status := "completed"
          bucket := bucketName }
    session := { p.session with completedFiles := p.session.completedFiles + 1 } }

/-- `this.sessionStats` of the part_000 variant. -/
structure SessionStats where
  uploaded : Nat
  skipped : Nat
  failed : Nat
  totalSize : Nat
  uploadedSize : Nat
  deriving Repr, DecidableEq

def freshStats : SessionStats :=
  { uploaded := 0, skipped := 0, failed := 0, totalSize := 0, uploadedSize := 0 }

/-- Per-file outcome of the processing loop (instrumentation used to state
the batch-level claims; not a field of the source state). -/
inductive FileOutcome where
  | skippedDup
  | uploadedMoved
  | uploadedMoveFailed
  | uploadFailed
  deriving Repr, DecidableEq

/-- State threaded through the `processFiles` loop of part_000; `outcomes`
is instrumentation recording one entry per processed file. -/
structure ProcState where
  progress : Progress
  stats : SessionStats
  outcomes : List (String × FileOutcome)
  deriving Repr, DecidableEq

/-- One iteration of the part_000 `processFiles` loop: re-check
`isAlreadyUploaded`, upload, record, move to the transferred folder.  Note
that a successful upload followed by a failed move logs the record but
increments `sessionStats.failed`. -/
def processStep (bucketName : String) (hashOf : String → Option String)
    (uploadOk moveOk : String → Bool) (st : ProcState) (file : MediaFile) :
    ProcState :=
  if (isAlreadyUploaded st.progress hashOf file.name (some file.path)).1 then
    { st with
      stats := { st.stats with skipped := st.stats.skipped + 1 }
      outcomes := st.outcomes ++ [(file.name, .skippedDup)] }
  else
    let s3Key := "media/" ++ file.name
    if uploadOk file.path then
      let progress1 := logUpload bucketName st.progress file.name s3Key file.size file.hash
      if moveOk file.path then
        { progress := progress1
          stats := { st.stats with
            uploaded := st.stats.uploaded + 1
            uploadedSize := st.stats.uploadedSize + file.size }
          outcomes := st.outcomes ++ [(file.name, .uploadedMoved)] }
      else
        { progress := progress1
          stats := { st.stats with failed := st.stats.failed + 1 }
          outcomes := st.outcomes ++ [(file.name, .uploadedMoveFailed)] }
    else
      { st with
        stats := { st.stats with failed := st.stats.failed + 1 }
        outcomes := st.outcomes ++ [(file.name, .uploadFailed)] }

/-- The `unprocessedFiles` pre-filter of the part_000 `processFiles`. -/
def unprocessedFiles (hashOf : String → Option String) (progress : Progress)
    (mediaFiles : List MediaFile) : List MediaFile :=
  mediaFiles.filter
    (fun file => !(isAlreadyUploaded progress hashOf file.name (some file.path)).1)

/-- `S3MediaUploader.processFiles` (part_000 variant).  `mediaFiles` is the
list `getMediaFiles` built from the source folder (filesystem oracle). -/
def processFiles (bucketName : String) (hashOf : String → Option String)
    (uploadOk moveOk : String → Bool) (progress0 : Progress)
    (mediaFiles : List MediaFile) : ProcState :=
  if mediaFiles.isEmpty then
    { progress := progress0, stats := freshStats, outcomes := [] }
  else
    let progress1 :=
      { progress0 with session := { progress0.session with totalFiles := mediaFiles.length } }
    let unprocessed := unprocessedFiles hashOf progress1 mediaFiles
    if unprocessed.isEmpty then
      { progress := progress1, stats := freshStats, outcomes := [] }
    else
      unprocessed.foldl (processStep bucketName hashOf uploadOk moveOk)
        { progress := progress1, stats := freshStats, outcomes := [] }

end S3A

namespace S3B

/-!
Model of the `S3MediaUploader` class of `s3Uploader.js`: the variant that
keeps a separate permanent upload history and deletes local files after a
successful upload.  Oracles as in the part_000 model, with `deleteOk`
standing for the success of `deleteFile`.
-/

open Ytd

/-- One upload record as written by `logUpload` in `s3Uploader.js`
(`uploadDate` omitted; this variant adds the `deleted` flag). -/
structure UploadRecord where
  s3Key : String
  fileSizeBytes : Nat
  fileHash : Option String
  status : String
  bucket : String
  deleted : Bool
  deriving Repr, DecidableEq

structure Session where
  totalFiles : Nat
  completedFiles : Nat
  deriving Repr, DecidableEq

/-- The progress document backing `s3_upload_progress.json`. -/
structure Progress where
  uploadedFiles : List (String × UploadRecord)
  session : Session
  deriving Repr, DecidableEq

def freshProgress : Progress :=
  { uploadedFiles := [], session := { totalFiles := 0, completedFiles := 0 } }

/-- `S3MediaUploader.loadProgress` from `s3Uploader.js`: same recovery
shape as the part_000 variant; the second component records whether the
corruption warning was logged. -/
def loadProgress (fileExists : Bool) (parsed : Option Progress) :
    Progress × Bool :=
  if fileExists then
    match parsed with
    | some progress => (progress, false)
    | none => (freshProgress, true)
  else
    (freshProgress, false)

/-- `uploadHistory.metadata` (timestamps omitted). -/
structure HistoryMetadata where
  totalUploads : Nat
  totalSizeUploaded : Nat
  deriving Repr, DecidableEq

/-- The permanent history document backing `s3_upload_history.json`. -/
structure UploadHistory where
  files : List (String × UploadRecord)
  metadata : HistoryMetadata
  deriving Repr, DecidableEq

/-- `S3MediaUploader.isFileInHistory`: when a record with this filename
exists, the hash comparison is immaterial — both the matching and the
non-matching branch return `true`. -/
def isFileInHistory (history : UploadHistory) (filename : String)
    (fileHash : Option String) : Bool :=
  match lookupAssoc history.files filename with
  | none => false
  | some historyRecord =>
    match fileHash with
    | some h => if historyRecord.fileHash = some h then true else true
    | none => true

structure MediaFile where
  name : String
  path : String
  size : Nat
  hash : Option String
  deriving Repr, DecidableEq

/-- `S3MediaUploader.logUpload` from `s3Uploader.js`: writes the completed
record both to the current progress and to the permanent history. -/
def logUpload (bucketName : String) (progress : Progress)
    (history : UploadHistory) (filename s3Key : String) (fileSize : Nat)
    (fileHash : Option String) : Progress × UploadHistory :=
  let uploadRecord : UploadRecord :=
    { s3Key := s3Key
      fileSizeBytes := fileSize
      fileHash := fileHash
      status := "completed"
      bucket := bucketName
      deleted := true }
  ({ uploadedFiles := setAssoc progress.uploadedFiles filename uploadRecord
     session := { progress.session with
       completedFiles := progress.session.completedFiles + 1 } },
   { files := setAssoc history.files filename uploadRecord
     metadata := { totalUploads := history.metadata.totalUploads + 1
                   totalSizeUploaded := history.metadata.totalSizeUploaded + fileSize } })

/-- `this.sessionStats` of `s3Uploader.js` (adds the `deleted` counter). -/
structure SessionStats where
  uploaded : Nat
  skipped : Nat
  failed : Nat
  deleted : Nat
  totalSize : Nat
  uploadedSize : Nat
  deriving Repr, DecidableEq

def freshStats : SessionStats :=
  { uploaded := 0, skipped := 0, failed := 0, deleted := 0, totalSize := 0,
    uploadedSize := 0 }

/-- Per-file outcome of the upload loop (instrumentation). -/
inductive FileOutcome where
  | uploadedDeleted
  | uploadedDeleteFailed
  | uploadFailed
  deriving Repr, DecidableEq

structure ProcState where
  progress : Progress
  history : UploadHistory
  stats : SessionStats
  outcomes : List (String × FileOutcome)
  deriving Repr, DecidableEq

/-- One iteration of the `s3Uploader.js` `processFiles` loop over
`newFiles`: upload, record, save, then delete the local file; a failed
deletion still counts the unit as uploaded and only logs a warning. -/
def processStep (bucketName : String) (uploadOk deleteOk : String → Bool)
    (st : ProcState) (file : MediaFile) : ProcState :=
  let s3Key := "media/" ++ file.name
  if uploadOk file.path then
    let lh := logUpload bucketName st.progress st.history file.name s3Key file.size file.hash
    if deleteOk file.path then
      { progress := lh.1
        history := lh.2
        stats := { st.stats with
          deleted := st.stats.deleted + 1
          uploaded := st.stats.uploaded + 1
          uploadedSize := st.stats.uploadedSize + file.size }
        outcomes := st.outcomes ++ [(file.name, .uploadedDeleted)] }
    else
      { progress := lh.1
        history := lh.2
        stats := { st.stats with
          uploaded := st.stats.uploaded + 1
          uploadedSize := st.stats.uploadedSize + file.size }
        outcomes := st.outcomes ++ [(file.name, .uploadedDeleteFailed)] }
  else
    { st with
      stats := { st.stats with failed := st.stats.failed + 1 }
      outcomes := st.outcomes ++ [(file.name, .uploadFailed)] }

/-- The `newFiles` filter of the `s3Uploader.js` `processFiles`: files whose
name is already in the history (hash immaterial) are skipped up front. -/
def newFiles (history : UploadHistory) (mediaFiles : List MediaFile) :
    List MediaFile :=
  mediaFiles.filter (fun file => !(isFileInHistory history file.name file.hash))

/-- `S3MediaUploader.processFiles` from `s3Uploader.js`. -/
def processFiles (bucketName : String) (uploadOk deleteOk : String → Bool)
    (progress0 : Progress) (history0 : UploadHistory)
    (mediaFiles : List MediaFile) : ProcState :=
  if mediaFiles.isEmpty then
    { progress := progress0, history := history0, stats := freshStats, outcomes := [] }
  else
    let skippedCount := (mediaFiles.filter
      (fun file => isFileInHistory history0 file.name file.hash)).length
    let stats1 := { freshStats with skipped := skippedCount }
    let nf := newFiles history0 mediaFiles
    if nf.isEmpty then
      { progress := progress0, history := history0, stats := stats1, outcomes := [] }
    else
      let progress1 :=
        { progress0 with session := { progress0.session with totalFiles := nf.length } }
      nf.foldl (processStep bucketName uploadOk deleteOk)
        { progress := progress1, history := history0, stats := stats1, outcomes := [] }

end S3B

namespace Orchestrator

/-!
Model of the per-playlist body of `PlaylistProcessor.processPlaylists`
(`src/unnamed/part_002`).  The three stage invocations (`downloader`,
`merger`, `uploader`) are external collaborators here; their results for
this playlist are the `StageResults` input.  `downloadResults.successful`
is modelled by its list of filenames.
-/

/-- `processingState.playlists[playlistName]` (timestamp omitted). -/
structure PlaylistState where
  processed : Bool
  downloadedVideos : List String
  mergedVideos : List String
  uploadedVideos : List String
  deriving Repr, DecidableEq

def freshPlaylistState : PlaylistState :=
  { processed := false, downloadedVideos := [], mergedVideos := [],
    uploadedVideos := [] }

/-- Results of the three stage calls for one playlist. -/
structure StageResults where
  downloadSuccessful : List String
  mergedFiles : List String
  uploadedFiles : List String
  deriving Repr, DecidableEq

/-- The body of the `for (const playlistFile of playlistFiles)` loop for a
single playlist: skip when already processed or when no URLs were read,
otherwise accumulate stage outputs and mark the playlist processed exactly
when all three stage counts line up with the playlist's URL count. -/
def processPlaylistStep (st : PlaylistState) (playlistUrls : List String)
    (results : StageResults) : PlaylistState :=
  if st.processed then st
  else if playlistUrls.isEmpty then st
  else
    let st1 := { st with
      downloadedVideos := st.downloadedVideos ++ results.downloadSuccessful }
    let st2 := { st1 with mergedVideos := st1.mergedVideos ++ results.mergedFiles }
    let st3 := { st2 with uploadedVideos := st2.uploadedVideos ++ results.uploadedFiles }
    if results.downloadSuccessful.length == playlistUrls.length &&
        results.mergedFiles.length == results.downloadSuccessful.length &&
        results.uploadedFiles.length == results.mergedFiles.length then
      { st3 with processed := true }
    else st3

end Orchestrator

namespace VidMerger

/-- Number of occurrences of `name` among the video and audio slots of the
pairs returned by the `vidMerger.js` matcher. -/
def uses (name : String) (pairs : List Pair) : Nat :=
  pairs.countP (fun p => p.video == name) + pairs.countP (fun p => p.audio == name)

end VidMerger

namespace Merger

/-- Number of occurrences of `name` among the video and audio slots of the
pairs returned by the `merger.js` matcher. -/
def uses (name : String) (pairs : List MPair) : Nat :=
  pairs.countP (fun p => p.video == name) + pairs.countP (fun p => p.audio == name)

end Merger

namespace VidMerger

/-- All combined truncation depths at which `audio` can match the video
search term `vt` of index `t`: one entry `t + j` for every index `j` with
`audio.searchTerms[j] = vt`. -/
def termMatchDepths (vt : String) (t : Nat) (audio : FileInfo) : List Nat :=
  audio.searchTerms.enum.filterMap
    (fun p => if vt = p.2 then some (t + p.1) else none)

/-- All combined depths available for the video search term `vt` of index
`t` over the audio files not yet consumed. -/
def levelsAt (used : List String) (audios : List FileInfo) (vt : String)
    (t : Nat) : List Nat :=
  ((audios.filter (fun a => !(used.contains a.filename))).map
    (termMatchDepths vt t)).flatten

/-- Modelled from the spec: the minimum combined truncation depth over all
video-term/audio-term combinations of `video` against the not-yet-used
audio files ("accept the match with the lowest combined truncation depth"),
or `none` when no combination matches. -/
def specMinCombinedDepth (used : List String) (video : FileInfo)
    (audios : List FileInfo) : Option Nat :=
  match (video.searchTerms.enum.map (fun p => levelsAt used audios p.2 p.1)).flatten with
  | [] => none
  | x :: xs => some (xs.foldl min x)

end VidMerger

/-! ## Proofs about the progressive matcher (`vidMerger.js`) -/

namespace VidMerger

lemma mkFileInfo_filename (file : String) : (mkFileInfo file).filename = file := rfl

/-- Every file classified as video has a video extension, and every file
classified as audio does not (classification tests video first). -/
lemma classify_go (files : List String) (acc : List FileInfo × List FileInfo)
    (h1 : ∀ i ∈ acc.1, VIDEO_EXTENSIONS.contains (Ytd.lowerExt i.filename) = true)
    (h2 : ∀ i ∈ acc.2, VIDEO_EXTENSIONS.contains (Ytd.lowerExt i.filename) = false) :
    (∀ i ∈ (files.foldl classifyStep acc).1,
        VIDEO_EXTENSIONS.contains (Ytd.lowerExt i.filename) = true) ∧
    (∀ i ∈ (files.foldl classifyStep acc).2,
        VIDEO_EXTENSIONS.contains (Ytd.lowerExt i.filename) = false) := by
  induction files generalizing acc with
  | nil => exact ⟨h1, h2⟩
  | cons file rest ih =>
    simp only [List.foldl_cons]
    refine ih _ ?_ ?_
    · intro i hi
      simp only [classifyStep] at hi
      split at hi
      case isTrue hv =>
        rcases List.mem_append.1 hi with h | h
        · exact h1 i h
        · simp only [List.mem_singleton] at h
          subst h
          rw [mkFileInfo_filename]
          exact hv
      case isFalse hv =>
        split at hi
        · exact h1 i hi
        · exact h1 i hi
    · intro i hi
      simp only [classifyStep] at hi
      split at hi
      case isTrue hv => exact h2 i hi
      case isFalse hv =>
        split at hi
        · rcases List.mem_append.1 hi with h | h
          · exact h2 i h
          · simp only [List.mem_singleton] at h
            subst h
            rw [mkFileInfo_filename]
            exact Bool.eq_false_iff.mpr hv
        · exact h2 i hi

lemma classifyFiles_fst_ext (files : List String) :
    ∀ i ∈ (classifyFiles files).1,
      VIDEO_EXTENSIONS.contains (Ytd.lowerExt i.filename) = true :=
  (classify_go files ([], []) (by simp) (by simp)).1

lemma classifyFiles_snd_ext (files : List String) :
    ∀ i ∈ (classifyFiles files).2,
      VIDEO_EXTENSIONS.contains (Ytd.lowerExt i.filename) = false :=
  (classify_go files ([], []) (by simp) (by simp)).2

/-- `updateBest` only ever yields the previous best or the new candidate. -/
lemma updateBest_ok (P : FileInfo → Prop) (cand : FileInfo × Nat)
    (st : Option (FileInfo × Nat)) (hc : P cand.1)
    (hst : ∀ a l, st = some (a, l) → P a) :
    ∀ a l, updateBest cand st = some (a, l) → P a := by
  intro a l h
  match st, hst with
  | none, _ =>
    simp only [updateBest] at h
    cases h
    exact hc
  | some (b, lvl), hst =>
    simp only [updateBest] at h
    split at h
    · cases h; exact hc
    · cases h; exact hst _ _ rfl

/-- The inner search-term scan only yields the previous best or the scanned
audio file. -/
lemma termScan_ok (P : FileInfo → Prop) (audioFile : FileInfo)
    (videoTerm : String) (t : Nat) (terms : List (Nat × String))
    (st : Option (FileInfo × Nat)) (ha : P audioFile)
    (hst : ∀ a l, st = some (a, l) → P a) :
    ∀ a l,
      terms.foldl
        (fun st p => if videoTerm = p.2 then updateBest (audioFile, t + p.1) st else st)
        st = some (a, l) → P a := by
  induction terms generalizing st with
  | nil => exact hst
  | cons q rest ih =>
    simp only [List.foldl_cons]
    apply ih
    intro a l h
    split at h
    · exact updateBest_ok P _ st ha hst a l h
    · exact hst a l h

/-- `scanAudio` only yields audio files from its list that are not in
`used`. -/
lemma scanAudio_ok (used : List String) (videoTerm : String) (t : Nat)
    (audios : List FileInfo) (P : FileInfo → Prop)
    (haud : ∀ x ∈ audios, used.contains x.filename = false → P x)
    (st : Option (FileInfo × Nat)) (hst : ∀ a l, st = some (a, l) → P a) :
    ∀ a l, scanAudio used videoTerm t audios st = some (a, l) → P a := by
  induction audios generalizing st with
  | nil => exact hst
  | cons audioFile rest ih =>
    unfold scanAudio
    simp only [List.foldl_cons]
    intro a l h
    refine ih (fun x hx hu => haud x (List.mem_cons_of_mem _ hx) hu) _ ?_ a l h
    intro a' l' h'
    split at h'
    · exact hst a' l' h'
    · refine termScan_ok P audioFile videoTerm t _ st ?_ hst a' l' h'
      refine haud audioFile (List.mem_cons_self _ _) ?_
      exact Bool.eq_false_iff.mpr ‹¬ _›

lemma findBestMatch_go (used : List String) (audios : List FileInfo)
    (terms : List (Nat × String)) (st : Option (FileInfo × Nat))
    (hst : ∀ a l, st = some (a, l) →
      used.contains a.filename = false ∧ a ∈ audios) :
    ∀ b lvl,
      terms.foldl
        (fun st p =>
          match st with
          | some _ => st
          | none => scanAudio used p.2 p.1 audios none)
        st = some (b, lvl) →
      used.contains b.filename = false ∧ b ∈ audios := by
  induction terms generalizing st with
  | nil => exact hst
  | cons p rest ih =>
    simp only [List.foldl_cons]
    apply ih
    intro a l h
    match st, hst with
    | some q, hst => exact hst a l h
    | none, _ =>
      refine scanAudio_ok used p.2 p.1 audios
        (fun a => used.contains a.filename = false ∧ a ∈ audios)
        (fun x hx hu => ⟨hu, hx⟩) none (by intro a l h; cases h) a l h

/-- A best match returned by `findBestMatch` is an unused member of the
audio list. -/
lemma findBestMatch_ok (used : List String) (video : FileInfo)
    (audios : List FileInfo) :
    ∀ b lvl, findBestMatch used video audios = some (b, lvl) →
      used.contains b.filename = false ∧ b ∈ audios := by
  unfold findBestMatch
  exact findBestMatch_go used audios video.searchTerms.enum none
    (by intro a l h; cases h)

end VidMerger

namespace VidMerger

/-- One matching-loop iteration preserves the at-most-one-use invariant. -/
lemma matchStep_inv (am : String → Bool) (audios : List FileInfo) (v : FileInfo)
    (st : List Pair × List String)
    (hv : VIDEO_EXTENSIONS.contains (Ytd.lowerExt v.filename) = true)
    (haud : ∀ b ∈ audios, VIDEO_EXTENSIONS.contains (Ytd.lowerExt b.filename) = false)
    (hInv : ∀ name, uses name st.1 ≤ 1 ∧ (1 ≤ uses name st.1 → name ∈ st.2)) :
    ∀ name, uses name (matchStep am audios st v).1 ≤ 1 ∧
      (1 ≤ uses name (matchStep am audios st v).1 → name ∈ (matchStep am audios st v).2) := by
  obtain ⟨pairs, used⟩ := st
  simp only [matchStep]
  split
  · exact hInv
  · rename_i hguard
    cases hbm : findBestMatch used v audios with
    | none => simpa [hbm] using hInv
    | some bl =>
      obtain ⟨best, lvl⟩ := bl
      obtain ⟨hbu, hbmem⟩ := findBestMatch_ok used v audios best lvl hbm
      have hvNot : v.filename ∉ used := fun hmem => hguard (List.elem_iff.mpr hmem)
      have hbNot : best.filename ∉ used := by
        intro hmem
        exact Bool.true_eq_false.mp ((List.elem_iff.mpr hmem).symm.trans hbu)
      have hvb : best.filename ≠ v.filename := by
        intro h
        have := haud best hbmem
        rw [h, hv] at this
        cases this
      have hvb' : v.filename ≠ best.filename := fun h => hvb h.symm
      have usesZero : ∀ nm, nm ∉ used → uses nm pairs = 0 := by
        intro nm hnm
        by_contra hne
        exact hnm ((hInv nm).2 (Nat.one_le_iff_ne_zero.mpr hne))
      intro name
      simp only [hbm]
      rw [show
        (uses name (pairs ++
          [{ baseName := safeBaseName v.cleanName
             video := v.filename
             audio := best.filename
             output := safeBaseName v.cleanName ++ "_merged.mp4"
             outputPath := OUTPUT_FOLDER ++ "/" ++ (safeBaseName v.cleanName ++ "_merged.mp4")
             alreadyExists := am (OUTPUT_FOLDER ++ "/" ++ (safeBaseName v.cleanName ++ "_merged.mp4"))
             matchLevel := lvl
             videoCleanName := v.cleanName
             audioCleanName := best.cleanName }])) =
        uses name pairs + ((if v.filename = name then 1 else 0) +
          (if best.filename = name then 1 else 0)) from by
          simp only [uses, List.countP_append, List.countP_cons, List.countP_nil,
            beq_iff_eq]
          split <;> split <;> omega]
      by_cases h1 : name = v.filename
      · subst h1
        have h0 := usesZero _ hvNot
        rw [h0, if_pos rfl, if_neg hvb]
        exact ⟨by omega, fun _ => by simp⟩
      · by_cases h2 : name = best.filename
        · subst h2
          have h0 := usesZero _ hbNot
          rw [h0, if_pos rfl, if_neg (fun h => h1 h.symm)]
          exact ⟨by omega, fun _ => by simp⟩
        · rw [if_neg (fun h => h1 h.symm), if_neg (fun h => h2 h.symm)]
          refine ⟨by have := (hInv name).1; simpa using this, fun hge => ?_⟩
          have hmem : name ∈ used := by
            apply (hInv name).2
            simpa using hge
          simp [hmem]

/-- The matching fold preserves the invariant from any starting state. -/
lemma matchFold_inv (am : String → Bool) (audios : List FileInfo)
    (vs : List FileInfo) (st : List Pair × List String)
    (hvs : ∀ v ∈ vs, VIDEO_EXTENSIONS.contains (Ytd.lowerExt v.filename) = true)
    (haud : ∀ b ∈ audios, VIDEO_EXTENSIONS.contains (Ytd.lowerExt b.filename) = false)
    (hInv : ∀ name, uses name st.1 ≤ 1 ∧ (1 ≤ uses name st.1 → name ∈ st.2)) :
    ∀ name, uses name (vs.foldl (matchStep am audios) st).1 ≤ 1 ∧
      (1 ≤ uses name (vs.foldl (matchStep am audios) st).1 →
        name ∈ (vs.foldl (matchStep am audios) st).2) := by
  induction vs generalizing st with
  | nil => exact hInv
  | cons v rest ih =>
    simp only [List.foldl_cons]
    exact ih _ (fun x hx => hvs x (List.mem_cons_of_mem _ hx))
      (matchStep_inv am audios v st (hvs v (List.mem_cons_self _ _)) haud hInv)

/-- At-most-one-use for the `vidMerger.js` matcher. -/
lemma vidMerger_uses_le_one (am : String → Bool) (files : List String)
    (name : String) : uses name (findMatchingPairs am files) ≤ 1 := by
  unfold findMatchingPairs findMatchingPairsFull
  exact (matchFold_inv am (classifyFiles files).2 (classifyFiles files).1 ([], [])
    (classifyFiles_fst_ext files) (classifyFiles_snd_ext files)
    (by intro name; simp [uses]) name).1

end VidMerger

/-! ## Proofs about the exact-stem matcher (`merger.js`) -/

namespace Merger

/-- `setEntry` writes `file` into the slot selected by its extension test and
keeps the other slot. -/
lemma setEntry_ok (file : String) (e : MapEntry) (k : String)
    (hbase : getBaseName file = k)
    (hv : ∀ v, e.video = some v →
      getBaseName v = k ∧ videoExtensions.contains (Ytd.lowerExt v) = true)
    (ha : ∀ a, e.audio = some a →
      getBaseName a = k ∧ videoExtensions.contains (Ytd.lowerExt a) = false) :
    (∀ v, (setEntry (Ytd.lowerExt file) file e).video = some v →
      getBaseName v = k ∧ videoExtensions.contains (Ytd.lowerExt v) = true) ∧
    (∀ a, (setEntry (Ytd.lowerExt file) file e).audio = some a →
      getBaseName a = k ∧ videoExtensions.contains (Ytd.lowerExt a) = false) := by
  unfold setEntry
  split
  · refine ⟨?_, ?_⟩
    · intro v hv'
      simp only at hv'
      cases hv'
      exact ⟨hbase, ‹_›⟩
    · intro a ha'
      simp only at ha'
      exact ha a ha'
  · split
    · refine ⟨?_, ?_⟩
      · intro v hv'
        simp only at hv'
        exact hv v hv'
      · intro a ha'
        simp only at ha'
        cases ha'
        exact ⟨hbase, Bool.eq_false_iff.mpr ‹_›⟩
    · exact ⟨hv, ha⟩

/-- Keys after an `updateMap` come from the old keys or are the new key. -/
lemma updateMap_keys (b ext f : String) (m : List (String × MapEntry)) :
    ∀ x ∈ (updateMap b ext f m).map Prod.fst, x ∈ m.map Prod.fst ∨ x = b := by
  induction m with
  | nil =>
    intro x hx
    simp only [updateMap, List.map_cons, List.map_nil, List.mem_singleton] at hx
    exact Or.inr hx
  | cons ke rest ih =>
    intro x hx
    obtain ⟨k, e⟩ := ke
    simp only [updateMap] at hx
    split at hx
    · simp only [List.map_cons] at hx ⊢
      exact Or.inl hx
    · simp only [List.map_cons] at hx ⊢
      rcases List.mem_cons.1 hx with h | h
      · exact Or.inl (List.mem_cons.2 (Or.inl h))
      · rcases ih x h with h' | h'
        · exact Or.inl (List.mem_cons.2 (Or.inr h'))
        · exact Or.inr h'

/-- `updateMap` with a file's own base name and extension preserves key
nodupness and the per-entry facts. -/
lemma updateMap_ok (file : String) (m : List (String × MapEntry))
    (hnd : (m.map Prod.fst).Nodup)
    (hok : ∀ ke ∈ m,
      (∀ v, ke.2.video = some v →
        getBaseName v = ke.1 ∧ videoExtensions.contains (Ytd.lowerExt v) = true) ∧
      (∀ a, ke.2.audio = some a →
        getBaseName a = ke.1 ∧ videoExtensions.contains (Ytd.lowerExt a) = false)) :
    (((updateMap (getBaseName file) (Ytd.lowerExt file) file m).map Prod.fst).Nodup) ∧
    ∀ ke ∈ updateMap (getBaseName file) (Ytd.lowerExt file) file m,
      (∀ v, ke.2.video = some v →
        getBaseName v = ke.1 ∧ videoExtensions.contains (Ytd.lowerExt v) = true) ∧
      (∀ a, ke.2.audio = some a →
        getBaseName a = ke.1 ∧ videoExtensions.contains (Ytd.lowerExt a) = false) := by
  induction m with
  | nil =>
    constructor
    · simp [updateMap]
    intro ke hke
    simp only [updateMap, List.mem_singleton] at hke
    subst hke
    exact setEntry_ok file ⟨none, none⟩ (getBaseName file) rfl
      (by intro v h; cases h) (by intro a h; cases h)
  | cons ke0 rest ih =>
    obtain ⟨k, e⟩ := ke0
    simp only [updateMap]
    split
    · rename_i hk
      simp only [List.map_cons, List.nodup_cons] at hnd ⊢
      refine ⟨hnd, ?_⟩
      intro ke hke
      rcases List.mem_cons.1 hke with h | h
      · subst h
        have hhead := hok (k, e) (List.mem_cons_self _ _)
        exact setEntry_ok file e k hk.symm hhead.1 hhead.2
      · exact hok ke (List.mem_cons_of_mem _ h)
    · rename_i hk
      simp only [List.map_cons, List.nodup_cons] at hnd
      have hrest := ih hnd.2 (fun ke hke => hok ke (List.mem_cons_of_mem _ hke))
      refine ⟨?_, ?_⟩
      · simp only [List.map_cons, List.nodup_cons]
        refine ⟨?_, hrest.1⟩
        intro hmem
        rcases updateMap_keys (getBaseName file) (Ytd.lowerExt file) file rest k hmem with h | h
        · exact hnd.1 h
        · exact hk h
      · intro ke hke
        rcases List.mem_cons.1 hke with h | h
        · subst h
          exact hok (k, e) (List.mem_cons_self _ _)
        · exact hrest.2 ke h

/-- Invariant of the grouping fold of `findMatchingPairs`. -/
lemma buildFileMap_ok (files : List String) :
    (((buildFileMap files).map Prod.fst).Nodup) ∧
    ∀ ke ∈ buildFileMap files,
      (∀ v, ke.2.video = some v →
        getBaseName v = ke.1 ∧ videoExtensions.contains (Ytd.lowerExt v) = true) ∧
      (∀ a, ke.2.audio = some a →
        getBaseName a = ke.1 ∧ videoExtensions.contains (Ytd.lowerExt a) = false) := by
  unfold buildFileMap
  have main : ∀ (fs : List String) (m : List (String × MapEntry)),
      (m.map Prod.fst).Nodup →
      (∀ ke ∈ m,
        (∀ v, ke.2.video = some v →
          getBaseName v = ke.1 ∧ videoExtensions.contains (Ytd.lowerExt v) = true) ∧
        (∀ a, ke.2.audio = some a →
          getBaseName a = ke.1 ∧ videoExtensions.contains (Ytd.lowerExt a) = false)) →
      (((fs.foldl (fun m file => updateMap (getBaseName file) (Ytd.lowerExt file) file m) m).map Prod.fst).Nodup) ∧
      ∀ ke ∈ fs.foldl (fun m file => updateMap (getBaseName file) (Ytd.lowerExt file) file m) m,
        (∀ v, ke.2.video = some v →
          getBaseName v = ke.1 ∧ videoExtensions.contains (Ytd.lowerExt v) = true) ∧
        (∀ a, ke.2.audio = some a →
          getBaseName a = ke.1 ∧ videoExtensions.contains (Ytd.lowerExt a) = false) := by
    intro fs
    induction fs with
    | nil => intro m hnd hok; exact ⟨hnd, hok⟩
    | cons file rest ih =>
      intro m hnd hok
      simp only [List.foldl_cons]
      have := updateMap_ok file m hnd hok
      exact ih _ this.1 this.2
  exact main files [] (by simp) (by simp)

/-- The base names of the produced pairs form a sublist of the map keys. -/
lemma pairs_baseNames_sublist (m : List (String × MapEntry)) :
    ((m.filterMap (fun ke =>
      match ke.2.video, ke.2.audio with
      | some v, some a =>
        some { baseName := ke.1, video := v, audio := a, output := ke.1 ++ ".mp4" }
      | _, _ => none)).map MPair.baseName).Sublist (m.map Prod.fst) := by
  induction m with
  | nil => simp
  | cons ke rest ih =>
    obtain ⟨k, e⟩ := ke
    simp only [List.filterMap_cons, List.map_cons]
    cases hv : e.video with
    | none => exact ih.cons k
    | some v =>
      cases ha : e.audio with
      | none => exact ih.cons k
      | some a => exact ih.cons₂ k

/-- Membership facts about produced pairs. -/
lemma pairs_props (files : List String) :
    ((findMatchingPairs files).map MPair.baseName).Nodup ∧
    ∀ p ∈ findMatchingPairs files,
      getBaseName p.video = p.baseName ∧ getBaseName p.audio = p.baseName ∧
      p.video ≠ p.audio := by
  have hmap := buildFileMap_ok files
  unfold findMatchingPairs
  refine ⟨(pairs_baseNames_sublist (buildFileMap files)).nodup hmap.1, ?_⟩
  intro p hp
  rcases List.mem_filterMap.1 hp with ⟨ke, hke, hfke⟩
  have hok := hmap.2 ke hke
  cases hv : ke.2.video with
  | none => rw [hv] at hfke; cases hfke
  | some v =>
    cases ha : ke.2.audio with
    | none => rw [hv, ha] at hfke; cases hfke
    | some a =>
      rw [hv, ha] at hfke
      cases hfke
      have h1 := hok.1 v hv
      have h2 := hok.2 a ha
      refine ⟨h1.1, h2.1, ?_⟩
      intro h
      have h' : v = a := h
      rw [h'] at h1
      rw [h2.2] at h1
      cases h1.2

/-- Counting argument: pairwise-distinct base names force at most one use of
each filename. -/
lemma uses_le_one_of_props (name : String) (pairs : List MPair)
    (hnd : (pairs.map MPair.baseName).Nodup)
    (hp : ∀ p ∈ pairs,
      getBaseName p.video = p.baseName ∧ getBaseName p.audio = p.baseName ∧
      p.video ≠ p.audio) :
    uses name pairs ≤ 1 := by
  induction pairs with
  | nil => simp [uses]
  | cons p rest ih =>
    simp only [List.map_cons, List.nodup_cons] at hnd
    have hhead := hp p (List.mem_cons_self _ _)
    have hrest := fun q hq => hp q (List.mem_cons_of_mem _ hq)
    rw [show uses name (p :: rest) =
      ((if p.video = name then 1 else 0) + (if p.audio = name then 1 else 0)) +
        uses name rest from by
      simp only [uses, List.countP_cons, beq_iff_eq]
      split <;> split <;> omega]
    by_cases hcase : p.video = name ∨ p.audio = name
    · have hbase : getBaseName name = p.baseName := by
        rcases hcase with h | h
        · rw [← h]; exact hhead.1
        · rw [← h]; exact hhead.2.1
      have hrest0 : uses name rest = 0 := by
        simp only [uses, Nat.add_eq_zero]
        constructor
        · rw [List.countP_eq_zero]
          intro q hq hq'
          simp only [beq_iff_eq] at hq'
          have hthis := (hrest q hq).1
          rw [hq'] at hthis
          have hqb : p.baseName = q.baseName := hbase.symm.trans hthis
          exact hnd.1 (by rw [hqb]; exact List.mem_map_of_mem _ hq)
        · rw [List.countP_eq_zero]
          intro q hq hq'
          simp only [beq_iff_eq] at hq'
          have hthis := (hrest q hq).2.1
          rw [hq'] at hthis
          have hqb : p.baseName = q.baseName := hbase.symm.trans hthis
          exact hnd.1 (by rw [hqb]; exact List.mem_map_of_mem _ hq)
      rw [hrest0]
      have hne : ¬(p.video = name ∧ p.audio = name) := by
        rintro ⟨h1, h2⟩
        exact hhead.2.2 (h1.trans h2.symm)
      split <;> split <;> first
        | omega
        | (exact absurd ⟨‹_›, ‹_›⟩ hne)
    · push_neg at hcase
      rw [if_neg hcase.1, if_neg hcase.2]
      simpa using ih hnd.2 hrest

/-- At-most-one-use for the `merger.js` matcher. -/
lemma merger_uses_le_one (files : List String) (name : String) :
    uses name (findMatchingPairs files) ≤ 1 := by
  have h := pairs_props files
  exact uses_le_one_of_props name (findMatchingPairs files) h.1 h.2

end Merger

namespace VidMerger

/-- Classification only appends. -/
lemma classifyStep_mono (acc : List FileInfo × List FileInfo) (file : String) :
    (∀ i ∈ acc.1, i ∈ (classifyStep acc file).1) ∧
    (∀ i ∈ acc.2, i ∈ (classifyStep acc file).2) := by
  simp only [classifyStep]
  split
  · exact ⟨fun i hi => List.mem_append.2 (Or.inl hi), fun i hi => hi⟩
  · split
    · exact ⟨fun i hi => hi, fun i hi => List.mem_append.2 (Or.inl hi)⟩
    · exact ⟨fun i hi => hi, fun i hi => hi⟩

lemma classifyFold_mono (files : List String) (acc : List FileInfo × List FileInfo) :
    (∀ i ∈ acc.1, i ∈ (files.foldl classifyStep acc).1) ∧
    (∀ i ∈ acc.2, i ∈ (files.foldl classifyStep acc).2) := by
  induction files generalizing acc with
  | nil => exact ⟨fun _ h => h, fun _ h => h⟩
  | cons f rest ih =>
    simp only [List.foldl_cons]
    exact ⟨fun i hi => (ih _).1 _ ((classifyStep_mono acc f).1 i hi),
           fun i hi => (ih _).2 _ ((classifyStep_mono acc f).2 i hi)⟩

/-- A listed file with a video extension lands in the video list. -/
lemma classify_mem_of_video (files : List String) (file : String)
    (hmem : file ∈ files)
    (hv : VIDEO_EXTENSIONS.contains (Ytd.lowerExt file) = true) :
    mkFileInfo file ∈ (classifyFiles files).1 := by
  unfold classifyFiles
  have main : ∀ (fs : List String) (acc : List FileInfo × List FileInfo),
      file ∈ fs → mkFileInfo file ∈ (fs.foldl classifyStep acc).1 := by
    intro fs
    induction fs with
    | nil => intro acc h; cases h
    | cons f rest ih =>
      intro acc h
      simp only [List.foldl_cons]
      rcases List.mem_cons.1 h with h | h
      · subst h
        refine (classifyFold_mono rest _).1 _ ?_
        unfold classifyStep
        rw [if_pos hv]
        exact List.mem_append.2 (Or.inr (List.mem_singleton.2 rfl))
      · exact ih _ h
  exact main files ([], []) hmem

/-- A listed file with an audio (and not video) extension lands in the
audio list. -/
lemma classify_mem_of_audio (files : List String) (file : String)
    (hmem : file ∈ files)
    (hv : VIDEO_EXTENSIONS.contains (Ytd.lowerExt file) = false)
    (ha : AUDIO_EXTENSIONS.contains (Ytd.lowerExt file) = true) :
    mkFileInfo file ∈ (classifyFiles files).2 := by
  unfold classifyFiles
  have main : ∀ (fs : List String) (acc : List FileInfo × List FileInfo),
      file ∈ fs → mkFileInfo file ∈ (fs.foldl classifyStep acc).2 := by
    intro fs
    induction fs with
    | nil => intro acc h; cases h
    | cons f rest ih =>
      intro acc h
      simp only [List.foldl_cons]
      rcases List.mem_cons.1 h with h | h
      · subst h
        refine (classifyFold_mono rest _).2 _ ?_
        unfold classifyStep
        rw [if_neg (by rw [hv]; exact Bool.false_ne_true), if_pos ha]
        exact List.mem_append.2 (Or.inr (List.mem_singleton.2 rfl))
      · exact ih _ h
  exact main files ([], []) hmem

/-- Converse half of the invariant: every name in `usedFiles` is used by
some pair. -/
lemma matchStep_mem_uses (am : String → Bool) (audios : List FileInfo)
    (v : FileInfo) (st : List Pair × List String)
    (h : ∀ name, name ∈ st.2 → 1 ≤ uses name st.1) :
    ∀ name, name ∈ (matchStep am audios st v).2 →
      1 ≤ uses name (matchStep am audios st v).1 := by
  obtain ⟨pairs, used⟩ := st
  replace h : ∀ name, name ∈ used → 1 ≤ uses name pairs := h
  simp only [matchStep]
  split
  · exact h
  · cases hbm : findBestMatch used v audios with
    | none => simpa [hbm] using h
    | some bl =>
      obtain ⟨best, lvl⟩ := bl
      intro name hname
      simp only [hbm] at hname ⊢
      rw [show
        (uses name (pairs ++
          [{ baseName := safeBaseName v.cleanName
             video := v.filename
             audio := best.filename
             output := safeBaseName v.cleanName ++ "_merged.mp4"
             outputPath := OUTPUT_FOLDER ++ "/" ++ (safeBaseName v.cleanName ++ "_merged.mp4")
             alreadyExists := am (OUTPUT_FOLDER ++ "/" ++ (safeBaseName v.cleanName ++ "_merged.mp4"))
             matchLevel := lvl
             videoCleanName := v.cleanName
             audioCleanName := best.cleanName }])) =
        uses name pairs + ((if v.filename = name then 1 else 0) +
          (if best.filename = name then 1 else 0)) from by
          simp only [uses, List.countP_append, List.countP_cons, List.countP_nil,
            beq_iff_eq]
          split <;> split <;> omega]
      rcases List.mem_append.1 hname with hmemu | hnew
      · have := h name hmemu
        omega
      · rcases List.mem_cons.1 hnew with h1 | h1
        · rw [if_pos h1.symm]
          omega
        · rw [if_pos (List.mem_singleton.1 h1).symm]
          omega

lemma matchFold_mem_uses (am : String → Bool) (audios : List FileInfo)
    (vs : List FileInfo) (st : List Pair × List String)
    (h : ∀ name, name ∈ st.2 → 1 ≤ uses name st.1) :
    ∀ name, name ∈ (vs.foldl (matchStep am audios) st).2 →
      1 ≤ uses name (vs.foldl (matchStep am audios) st).1 := by
  induction vs generalizing st with
  | nil => exact h
  | cons v rest ih =>
    simp only [List.foldl_cons]
    exact ih _ (matchStep_mem_uses am audios v st h)

/-- The full matcher is the matching fold over the classified lists. -/
lemma findMatchingPairsFull_eq (am : String → Bool) (files : List String) :
    findMatchingPairsFull am files =
      (classifyFiles files).1.foldl (matchStep am (classifyFiles files).2)
        ([], []) := rfl

/-- Names in the final `usedFiles` are exactly the names used by a pair. -/
lemma mem_used_iff_uses_one (am : String → Bool) (files : List String)
    (name : String) :
    name ∈ (findMatchingPairsFull am files).2 ↔
      uses name (findMatchingPairs am files) = 1 := by
  unfold findMatchingPairs
  rw [findMatchingPairsFull_eq]
  constructor
  · intro hmem
    have h1 := matchFold_mem_uses am (classifyFiles files).2 (classifyFiles files).1
      ([], []) (by intro nm h; cases h) name hmem
    have h2 := (VidMerger.matchFold_inv am (classifyFiles files).2
      (classifyFiles files).1 ([], [])
      (classifyFiles_fst_ext files) (classifyFiles_snd_ext files)
      (by intro nm; simp [uses]) name).1
    omega
  · intro huse
    have h2 := (VidMerger.matchFold_inv am (classifyFiles files).2
      (classifyFiles files).1 ([], [])
      (classifyFiles_fst_ext files) (classifyFiles_snd_ext files)
      (by intro nm; simp [uses]) name).2
    apply h2
    omega

end VidMerger

namespace VidMerger

lemma unusedVideos_eq (am : String → Bool) (files : List String) :
    unusedVideos am files =
      (classifyFiles files).1.filter
        (fun v => !((findMatchingPairsFull am files).2.contains v.filename)) := rfl

lemma unusedAudios_eq (am : String → Bool) (files : List String) :
    unusedAudios am files =
      (classifyFiles files).2.filter
        (fun a => !((findMatchingPairsFull am files).2.contains a.filename)) := rfl

lemma mem_unusedVideos (am : String → Bool) (files : List String) (name : String) :
    name ∈ (unusedVideos am files).map FileInfo.filename ↔
      ((∃ i ∈ (classifyFiles files).1, i.filename = name) ∧
        name ∉ (findMatchingPairsFull am files).2) := by
  rw [unusedVideos_eq]
  constructor
  · intro h
    rcases List.mem_map.1 h with ⟨i, hi, hname⟩
    rcases List.mem_filter.1 hi with ⟨hi1, hi2⟩
    refine ⟨⟨i, hi1, hname⟩, ?_⟩
    intro hmem
    rw [hname] at hi2
    have hfalse : (findMatchingPairsFull am files).2.contains name = false := by
      simpa using hi2
    exact Bool.true_eq_false.mp ((List.elem_iff.mpr hmem).symm.trans hfalse)
  · rintro ⟨⟨i, hi, hname⟩, hnot⟩
    refine List.mem_map.2 ⟨i, List.mem_filter.2 ⟨hi, ?_⟩, hname⟩
    rw [hname]
    cases hc : (findMatchingPairsFull am files).2.contains name
    · rfl
    · exact absurd (List.elem_iff.mp hc) hnot

lemma mem_unusedAudios (am : String → Bool) (files : List String) (name : String) :
    name ∈ (unusedAudios am files).map FileInfo.filename ↔
      ((∃ i ∈ (classifyFiles files).2, i.filename = name) ∧
        name ∉ (findMatchingPairsFull am files).2) := by
  rw [unusedAudios_eq]
  constructor
  · intro h
    rcases List.mem_map.1 h with ⟨i, hi, hname⟩
    rcases List.mem_filter.1 hi with ⟨hi1, hi2⟩
    refine ⟨⟨i, hi1, hname⟩, ?_⟩
    intro hmem
    rw [hname] at hi2
    have hfalse : (findMatchingPairsFull am files).2.contains name = false := by
      simpa using hi2
    exact Bool.true_eq_false.mp ((List.elem_iff.mpr hmem).symm.trans hfalse)
  · rintro ⟨⟨i, hi, hname⟩, hnot⟩
    refine List.mem_map.2 ⟨i, List.mem_filter.2 ⟨hi, ?_⟩, hname⟩
    rw [hname]
    cases hc : (findMatchingPairsFull am files).2.contains name
    · rfl
    · exact absurd (List.elem_iff.mp hc) hnot

/-- Partition: a recognised input filename is accounted for exactly once
across the pairs, the unmatched-video report and the unmatched-audio
report. -/
lemma vidMerger_no_loss (am : String → Bool) (files : List String)
    (name : String) (hmem : name ∈ files)
    (hrec : VIDEO_EXTENSIONS.contains (Ytd.lowerExt name) = true ∨
      AUDIO_EXTENSIONS.contains (Ytd.lowerExt name) = true) :
    uses name (findMatchingPairs am files) +
      ((if name ∈ (unusedVideos am files).map FileInfo.filename then 1 else 0) +
        (if name ∈ (unusedAudios am files).map FileInfo.filename then 1 else 0)) = 1 := by
  by_cases hused : name ∈ (findMatchingPairsFull am files).2
  · rw [(mem_used_iff_uses_one am files name).1 hused]
    rw [if_neg (fun h => ((mem_unusedVideos am files name).1 h).2 hused),
      if_neg (fun h => ((mem_unusedAudios am files name).1 h).2 hused)]
  · have hle := vidMerger_uses_le_one am files name
    have hne : uses name (findMatchingPairs am files) ≠ 1 :=
      fun h => hused ((mem_used_iff_uses_one am files name).2 h)
    have h0 : uses name (findMatchingPairs am files) = 0 := by omega
    rw [h0]
    by_cases hv : VIDEO_EXTENSIONS.contains (Ytd.lowerExt name) = true
    · rw [if_pos ((mem_unusedVideos am files name).2
        ⟨⟨mkFileInfo name, classify_mem_of_video files name hmem hv, rfl⟩, hused⟩)]
      rw [if_neg (fun h => ?_)]
      rcases ((mem_unusedAudios am files name).1 h).1 with ⟨i, hi, hiname⟩
      have := classifyFiles_snd_ext files i hi
      rw [hiname, hv] at this
      cases this
    · have hv' : VIDEO_EXTENSIONS.contains (Ytd.lowerExt name) = false :=
        Bool.eq_false_iff.mpr hv
      have ha : AUDIO_EXTENSIONS.contains (Ytd.lowerExt name) = true := by
        rcases hrec with h | h
        · exact absurd h hv
        · exact h
      rw [if_neg (fun h => ?_), if_pos ((mem_unusedAudios am files name).2
        ⟨⟨mkFileInfo name, classify_mem_of_audio files name hmem hv' ha, rfl⟩, hused⟩)]
      rcases ((mem_unusedVideos am files name).1 h).1 with ⟨i, hi, hiname⟩
      have := classifyFiles_fst_ext files i hi
      rw [hiname, hv'] at this
      cases this

end VidMerger

namespace VidMerger

/-- `updateBest` computes a minimum step: appending one candidate depth. -/
lemma updateBest_min (audio : FileInfo) (x : Nat) (st : Option (FileInfo × Nat))
    (S : List Nat)
    (h0 : st = none → S = [])
    (h1 : ∀ b l, st = some (b, l) → l ∈ S ∧ ∀ y ∈ S, l ≤ y) :
    (updateBest (audio, x) st = none → S ++ [x] = []) ∧
    (∀ b l, updateBest (audio, x) st = some (b, l) →
      l ∈ S ++ [x] ∧ ∀ y ∈ S ++ [x], l ≤ y) := by
  match st with
  | none =>
    rw [h0 rfl]
    refine ⟨(fun h => by cases h), ?_⟩
    intro b l h
    simp only [updateBest] at h
    cases h
    simp
  | some (b0, l0) =>
    have hb0 := h1 b0 l0 rfl
    refine ⟨(fun h => by simp only [updateBest] at h; split at h <;> cases h), ?_⟩
    intro b l h
    simp only [updateBest] at h
    split at h
    · cases h
      rename_i hlt
      constructor
      · simp
      · intro y hy
        rcases List.mem_append.1 hy with hy | hy
        · exact le_of_lt (lt_of_lt_of_le hlt (hb0.2 y hy))
        · simp only [List.mem_singleton] at hy
          omega
    · cases h
      rename_i hge
      constructor
      · exact List.mem_append.2 (Or.inl hb0.1)
      · intro y hy
        rcases List.mem_append.1 hy with hy | hy
        · exact hb0.2 y hy
        · simp only [List.mem_singleton] at hy
          omega

/-- The inner term fold computes the minimum of the previous state's depth
set extended by the audio file's matching depths. -/
lemma innerFold_min (audio : FileInfo) (vt : String) (t : Nat)
    (ps : List (Nat × String)) (st : Option (FileInfo × Nat)) (S : List Nat)
    (h0 : st = none → S = [])
    (h1 : ∀ b l, st = some (b, l) → l ∈ S ∧ ∀ y ∈ S, l ≤ y) :
    (ps.foldl (fun st p => if vt = p.2 then updateBest (audio, t + p.1) st else st)
        st = none →
      S ++ ps.filterMap (fun p => if vt = p.2 then some (t + p.1) else none) = []) ∧
    (∀ b l,
      ps.foldl (fun st p => if vt = p.2 then updateBest (audio, t + p.1) st else st)
          st = some (b, l) →
      l ∈ S ++ ps.filterMap (fun p => if vt = p.2 then some (t + p.1) else none) ∧
      ∀ y ∈ S ++ ps.filterMap (fun p => if vt = p.2 then some (t + p.1) else none),
        l ≤ y) := by
  induction ps generalizing st S with
  | nil =>
    simp only [List.foldl_nil, List.filterMap_nil, List.append_nil]
    exact ⟨h0, h1⟩
  | cons p rest ih =>
    simp only [List.foldl_cons, List.filterMap_cons]
    by_cases hp : vt = p.2
    · rw [if_pos hp, if_pos hp]
      have hstep := updateBest_min audio (t + p.1) st S h0 h1
      have := ih (updateBest (audio, t + p.1) st) (S ++ [t + p.1]) hstep.1 hstep.2
      simpa [List.append_assoc] using this
    · rw [if_neg hp, if_neg hp]
      exact ih st S h0 h1

/-- `scanAudio` computes the minimum of the previous state's depth set
extended by the depths of the unused audio files. -/
lemma scanAudio_min (used : List String) (vt : String) (t : Nat)
    (audios : List FileInfo) (st : Option (FileInfo × Nat)) (S : List Nat)
    (h0 : st = none → S = [])
    (h1 : ∀ b l, st = some (b, l) → l ∈ S ∧ ∀ y ∈ S, l ≤ y) :
    (scanAudio used vt t audios st = none →
      S ++ ((audios.filter (fun a => !(used.contains a.filename))).map
        (termMatchDepths vt t)).flatten = []) ∧
    (∀ b l, scanAudio used vt t audios st = some (b, l) →
      l ∈ S ++ ((audios.filter (fun a => !(used.contains a.filename))).map
        (termMatchDepths vt t)).flatten ∧
      ∀ y ∈ S ++ ((audios.filter (fun a => !(used.contains a.filename))).map
        (termMatchDepths vt t)).flatten, l ≤ y) := by
  induction audios generalizing st S with
  | nil =>
    simp only [scanAudio, List.foldl_nil, List.filter_nil, List.map_nil,
      List.flatten_nil, List.append_nil]
    exact ⟨h0, h1⟩
  | cons a rest ih =>
    unfold scanAudio
    simp only [List.foldl_cons]
    by_cases ha : used.contains a.filename = true
    · rw [if_pos ha]
      have hfilter : (a :: rest).filter (fun a => !(used.contains a.filename)) =
          rest.filter (fun a => !(used.contains a.filename)) := by
        rw [List.filter_cons, if_neg (fun hcond => by rw [ha] at hcond; simp at hcond)]
      rw [hfilter]
      have := ih st S h0 h1
      unfold scanAudio at this
      exact this
    · rw [if_neg ha]
      have hfilter : (a :: rest).filter (fun a => !(used.contains a.filename)) =
          a :: rest.filter (fun a => !(used.contains a.filename)) := by
        rw [List.filter_cons, if_pos (by rw [Bool.eq_false_iff.mpr ha]; rfl)]
      rw [hfilter]
      have hinner := innerFold_min a vt t a.searchTerms.enum st S h0 h1
      have := ih (a.searchTerms.enum.foldl
          (fun st p => if vt = p.2 then updateBest (a, t + p.1) st else st) st)
        (S ++ termMatchDepths vt t a)
        (by
          intro h
          exact hinner.1 h)
        (by
          intro b l h
          exact hinner.2 b l h)
      unfold scanAudio at this
      simpa [List.append_assoc] using this

/-- Once a best match is set, the remaining video terms are skipped. -/
lemma bestFold_some (audios : List FileInfo) (used : List String)
    (ps : List (Nat × String)) (x : FileInfo × Nat) :
    ps.foldl
      (fun st p =>
        match st with
        | some _ => st
        | none => scanAudio used p.2 p.1 audios none)
      (some x) = some x := by
  induction ps with
  | nil => rfl
  | cons p rest ih => simpa using ih

/-- Characterisation of `findBestMatch`: the matcher commits to the first
video search term that matches any unused audio file and minimises the
combined depth only within that term. -/
lemma findBestMatch_min (used : List String) (video : FileInfo)
    (audios : List FileInfo) (b : FileInfo) (lvl : Nat)
    (h : findBestMatch used video audios = some (b, lvl)) :
    ∃ pre p post, video.searchTerms.enum = pre ++ p :: post ∧
      (∀ q ∈ pre, levelsAt used audios q.2 q.1 = []) ∧
      lvl ∈ levelsAt used audios p.2 p.1 ∧
      ∀ y ∈ levelsAt used audios p.2 p.1, lvl ≤ y := by
  unfold findBestMatch at h
  have main : ∀ (ps : List (Nat × String)),
      ps.foldl
        (fun st p =>
          match st with
          | some _ => st
          | none => scanAudio used p.2 p.1 audios none)
        none = some (b, lvl) →
      ∃ pre p post, ps = pre ++ p :: post ∧
        (∀ q ∈ pre, levelsAt used audios q.2 q.1 = []) ∧
        lvl ∈ levelsAt used audios p.2 p.1 ∧
        ∀ y ∈ levelsAt used audios p.2 p.1, lvl ≤ y := by
    intro ps
    induction ps with
    | nil => intro h'; cases h'
    | cons p rest ih =>
      intro h'
      simp only [List.foldl_cons] at h'
      cases hscan : scanAudio used p.2 p.1 audios none with
      | none =>
        rw [hscan] at h'
        rcases ih h' with ⟨pre, q, post, heq, hpre, hmem, hmin⟩
        refine ⟨p :: pre, q, post, by rw [heq]; rfl, ?_, hmem, hmin⟩
        intro q' hq'
        rcases List.mem_cons.1 hq' with h | h
        · subst h
          have := (scanAudio_min used q'.2 q'.1 audios none []
            (fun _ => rfl) (by intro b l h; cases h)).1 hscan
          simpa [levelsAt] using this
        · exact hpre q' h
      | some x =>
        rw [hscan] at h'
        rw [bestFold_some audios used rest x] at h'
        rw [h'] at hscan
        have := (scanAudio_min used p.2 p.1 audios none []
          (fun _ => rfl) (by intro b l h; cases h)).2 b lvl hscan
        refine ⟨[], p, rest, rfl, (by intro q hq; cases hq), ?_, ?_⟩
        · simpa [levelsAt] using this.1
        · intro y hy
          refine this.2 y ?_
          simpa [levelsAt] using hy
  exact main video.searchTerms.enum h

end VidMerger

/-! ## Proofs about the download stage runner (`youtubescrape.js`) -/

namespace YtDl

lemma mark_downloaded_eq (p : PlaylistProgress) (i : Nat) (u f : String) :
    markVideoDownloaded p i u f "downloaded" =
      { p with
        downloadedVideos := p.downloadedVideos ++
          [{ index := i, url := u, filename := f, status := "downloaded" }]
        lastVideoIndex := max p.lastVideoIndex i } := rfl

lemma mark_skipped_eq (p : PlaylistProgress) (i : Nat) (u f : String) :
    markVideoDownloaded p i u f "skipped" =
      { p with
        skippedVideos := p.skippedVideos ++
          [{ index := i, url := u, filename := f, status := "skipped" }] } := rfl

lemma mark_failed_eq (p : PlaylistProgress) (i : Nat) (u f : String) :
    markVideoDownloaded p i u f "failed" =
      { p with
        failedVideos := p.failedVideos ++
          [{ index := i, url := u, filename := f, status := "failed" }] } := rfl

/-- Marking never removes a downloaded record. -/
lemma isDownloaded_mono (p : PlaylistProgress) (j : Nat) (u f st : String)
    (idx : Nat) (h : isVideoAlreadyDownloaded p idx = true) :
    isVideoAlreadyDownloaded (markVideoDownloaded p j u f st) idx = true := by
  unfold markVideoDownloaded
  split
  · unfold isVideoAlreadyDownloaded at h ⊢
    simp only [List.any_append, h, Bool.true_or]
  · split
    · exact h
    · split
      · exact h
      · exact h

/-- Marking a different index never creates a downloaded record for `idx`. -/
lemma isDownloaded_other (p : PlaylistProgress) (j : Nat) (u f st : String)
    (idx : Nat) (hne : j ≠ idx)
    (h : isVideoAlreadyDownloaded p idx = false) :
    isVideoAlreadyDownloaded (markVideoDownloaded p j u f st) idx = false := by
  unfold markVideoDownloaded
  split
  · unfold isVideoAlreadyDownloaded at h ⊢
    simp only [List.any_append, h, Bool.false_or, List.any_cons, List.any_nil,
      Bool.or_false]
    simpa using hne
  · split
    · exact h
    · split
      · exact h
      · exact h

/-- The download loop neither re-invokes nor un-records an
already-downloaded index. -/
lemma downloadLoop_not_invoked (attempt : Nat → AttemptResult)
    (resumeIndex : Nat) (ps : List (Nat × String)) (st : LoopState) (idx : Nat)
    (h1 : isVideoAlreadyDownloaded st.prog idx = true)
    (h2 : idx ∉ st.invoked) :
    isVideoAlreadyDownloaded
        (ps.foldl (downloadStep attempt resumeIndex) st).prog idx = true ∧
      idx ∉ (ps.foldl (downloadStep attempt resumeIndex) st).invoked := by
  induction ps generalizing st with
  | nil => exact ⟨h1, h2⟩
  | cons p rest ih =>
    simp only [List.foldl_cons]
    apply ih
    all_goals simp only [downloadStep]
    · split
      · exact h1
      · split <;> exact isDownloaded_mono _ _ _ _ _ _ h1
    · split
      · exact h2
      · rename_i hguard
        have hne : resumeIndex + p.1 + 1 ≠ idx := by
          intro heq
          rw [heq] at hguard
          exact hguard h1
        split <;>
          (intro hmem
           rcases List.mem_append.1 hmem with h | h
           · exact h2 h
           · exact hne (List.mem_singleton.1 h).symm)

/-- The loop never clears the `completed` flag (it never touches it). -/
lemma downloadLoop_completed (attempt : Nat → AttemptResult) (resumeIndex : Nat)
    (ps : List (Nat × String)) (st : LoopState) :
    (ps.foldl (downloadStep attempt resumeIndex) st).prog.completed =
      st.prog.completed := by
  induction ps generalizing st with
  | nil => rfl
  | cons p rest ih =>
    simp only [List.foldl_cons]
    rw [ih]
    simp only [downloadStep]
    split
    · rfl
    · split <;> rfl

/-- Invocations only accumulate. -/
lemma downloadLoop_invoked_mono (attempt : Nat → AttemptResult)
    (resumeIndex : Nat) (ps : List (Nat × String)) (st : LoopState) (idx : Nat)
    (h : idx ∈ st.invoked) :
    idx ∈ (ps.foldl (downloadStep attempt resumeIndex) st).invoked := by
  induction ps generalizing st with
  | nil => exact h
  | cons p rest ih =>
    simp only [List.foldl_cons]
    apply ih
    simp only [downloadStep]
    split
    · exact h
    · split <;> exact List.mem_append.2 (Or.inl h)

/-- A not-yet-downloaded position is always invoked, whatever the outcomes
of the other positions. -/
lemma downloadLoop_invokes (attempt : Nat → AttemptResult) (resumeIndex : Nat)
    (ps : List (Nat × String)) (st : LoopState) (i0 : Nat) (u0 : String)
    (hmem : (i0, u0) ∈ ps) (hnd : (ps.map Prod.fst).Nodup)
    (hguard : isVideoAlreadyDownloaded st.prog (resumeIndex + i0 + 1) = false) :
    (resumeIndex + i0 + 1) ∈
      (ps.foldl (downloadStep attempt resumeIndex) st).invoked := by
  induction ps generalizing st with
  | nil => cases hmem
  | cons p rest ih =>
    simp only [List.map_cons, List.nodup_cons] at hnd
    simp only [List.foldl_cons]
    by_cases hi : p.1 = i0
    · apply downloadLoop_invoked_mono
      simp only [downloadStep]
      rw [hi]
      rw [if_neg (by rw [hguard]; exact Bool.false_ne_true)]
      split <;> exact List.mem_append.2 (Or.inr (List.mem_singleton.2 rfl))
    · have hmem' : (i0, u0) ∈ rest := by
        rcases List.mem_cons.1 hmem with h | h
        · exact absurd (congrArg Prod.fst h.symm) hi
        · exact h
      refine ih _ hmem' hnd.2 ?_
      simp only [downloadStep]
      split
      · exact hguard
      · have hne : resumeIndex + p.1 + 1 ≠ resumeIndex + i0 + 1 := by
          intro heq
          exact hi (by omega)
        split <;> exact isDownloaded_other _ _ _ _ _ _ hne hguard

/-- Every failed record either pre-existed or corresponds to a thrown
attempt at its own index. -/
lemma downloadLoop_failed (attempt : Nat → AttemptResult) (resumeIndex : Nat)
    (ps : List (Nat × String)) (st : LoopState) (base : List VideoRecord)
    (hinv : ∀ r ∈ st.prog.failedVideos, r ∈ base ∨ attempt r.index = .thrown) :
    ∀ r ∈ (ps.foldl (downloadStep attempt resumeIndex) st).prog.failedVideos,
      r ∈ base ∨ attempt r.index = .thrown := by
  induction ps generalizing st with
  | nil => exact hinv
  | cons p rest ih =>
    simp only [List.foldl_cons]
    apply ih
    simp only [downloadStep]
    split
    · exact hinv
    · cases hat : attempt (resumeIndex + p.1 + 1) with
      | success title =>
        simp only [hat, mark_downloaded_eq]
        exact hinv
      | noHD title =>
        simp only [hat, mark_skipped_eq]
        exact hinv
      | thrown =>
        simp only [hat, mark_failed_eq]
        intro r hr
        rcases List.mem_append.1 hr with h | h
        · exact hinv r h
        · right
          rw [List.mem_singleton.1 h]
          exact hat

end YtDl

namespace YtDl

lemma downloadPlaylist_disabled (attempt : Nat → AttemptResult)
    (cfg : PlaylistConfig) (prog0 : PlaylistProgress) (urls : List String)
    (he : cfg.enabled = false) :
    downloadPlaylist attempt cfg prog0 urls =
      { progress := prog0, successful := 0, failed := 0, skipped := 0,
        invoked := [] } := by
  unfold downloadPlaylist
  rw [he]
  rfl

lemma downloadPlaylist_completed (attempt : Nat → AttemptResult)
    (cfg : PlaylistConfig) (prog0 : PlaylistProgress) (urls : List String)
    (he : cfg.enabled = true) (hc : prog0.completed = true) :
    downloadPlaylist attempt cfg prog0 urls =
      { progress := prog0
        successful := prog0.downloadedVideos.length
        failed := 0, skipped := 0, invoked := [] } := by
  unfold downloadPlaylist
  rw [he, hc]
  rfl

lemma downloadPlaylist_empty (attempt : Nat → AttemptResult)
    (cfg : PlaylistConfig) (prog0 : PlaylistProgress) (urls : List String)
    (he : cfg.enabled = true) (hc : prog0.completed = false)
    (hu : urls.isEmpty = true) :
    downloadPlaylist attempt cfg prog0 urls =
      { progress := prog0, successful := 0, failed := 0, skipped := 0,
        invoked := [] } := by
  unfold downloadPlaylist
  rw [he, hc, hu]
  rfl

lemma downloadPlaylist_main (attempt : Nat → AttemptResult)
    (cfg : PlaylistConfig) (prog0 : PlaylistProgress) (urls : List String)
    (he : cfg.enabled = true) (hc : prog0.completed = false)
    (hu : urls.isEmpty = false) :
    downloadPlaylist attempt cfg prog0 urls =
      { progress :=
          if ((sliceUrls urls (max cfg.startIndex prog0.lastVideoIndex)
                cfg.maxVideos).enum.foldl
              (downloadStep attempt (max cfg.startIndex prog0.lastVideoIndex))
              { prog := { prog0 with totalVideos := urls.length }
                successful := 0, failed := 0, skipped := 0,
                invoked := [] }).prog.downloadedVideos.length +
            ((sliceUrls urls (max cfg.startIndex prog0.lastVideoIndex)
                cfg.maxVideos).enum.foldl
              (downloadStep attempt (max cfg.startIndex prog0.lastVideoIndex))
              { prog := { prog0 with totalVideos := urls.length }
                successful := 0, failed := 0, skipped := 0,
                invoked := [] }).prog.skippedVideos.length +
            ((sliceUrls urls (max cfg.startIndex prog0.lastVideoIndex)
                cfg.maxVideos).enum.foldl
              (downloadStep attempt (max cfg.startIndex prog0.lastVideoIndex))
              { prog := { prog0 with totalVideos := urls.length }
                successful := 0, failed := 0, skipped := 0,
                invoked := [] }).prog.failedVideos.length ≥ urls.length ||
            (jsTruthy cfg.maxVideos &&
              ((sliceUrls urls (max cfg.startIndex prog0.lastVideoIndex)
                  cfg.maxVideos).enum.foldl
                (downloadStep attempt (max cfg.startIndex prog0.lastVideoIndex))
                { prog := { prog0 with totalVideos := urls.length }
                  successful := 0, failed := 0, skipped := 0,
                  invoked := [] }).prog.downloadedVideos.length +
              ((sliceUrls urls (max cfg.startIndex prog0.lastVideoIndex)
                  cfg.maxVideos).enum.foldl
                (downloadStep attempt (max cfg.startIndex prog0.lastVideoIndex))
                { prog := { prog0 with totalVideos := urls.length }
                  successful := 0, failed := 0, skipped := 0,
                  invoked := [] }).prog.skippedVideos.length +
              ((sliceUrls urls (max cfg.startIndex prog0.lastVideoIndex)
                  cfg.maxVideos).enum.foldl
                (downloadStep attempt (max cfg.startIndex prog0.lastVideoIndex))
                { prog := { prog0 with totalVideos := urls.length }
                  successful := 0, failed := 0, skipped := 0,
                  invoked := [] }).prog.failedVideos.length ≥
                cfg.maxVideos.getD 0) then
            markPlaylistCompleted
              ((sliceUrls urls (max cfg.startIndex prog0.lastVideoIndex)
                  cfg.maxVideos).enum.foldl
                (downloadStep attempt (max cfg.startIndex prog0.lastVideoIndex))
                { prog := { prog0 with totalVideos := urls.length }
                  successful := 0, failed := 0, skipped := 0,
                  invoked := [] }).prog
          else
            ((sliceUrls urls (max cfg.startIndex prog0.lastVideoIndex)
                cfg.maxVideos).enum.foldl
              (downloadStep attempt (max cfg.startIndex prog0.lastVideoIndex))
              { prog := { prog0 with totalVideos := urls.length }
                successful := 0, failed := 0, skipped := 0,
                invoked := [] }).prog
        successful :=
          ((sliceUrls urls (max cfg.startIndex prog0.lastVideoIndex)
              cfg.maxVideos).enum.foldl
            (downloadStep attempt (max cfg.startIndex prog0.lastVideoIndex))
            { prog := { prog0 with totalVideos := urls.length }
              successful := 0, failed := 0, skipped := 0,
              invoked := [] }).successful
        failed :=
          ((sliceUrls urls (max cfg.startIndex prog0.lastVideoIndex)
              cfg.maxVideos).enum.foldl
            (downloadStep attempt (max cfg.startIndex prog0.lastVideoIndex))
            { prog := { prog0 with totalVideos := urls.length }
              successful := 0, failed := 0, skipped := 0,
              invoked := [] }).failed
        skipped :=
          ((sliceUrls urls (max cfg.startIndex prog0.lastVideoIndex)
              cfg.maxVideos).enum.foldl
            (downloadStep attempt (max cfg.startIndex prog0.lastVideoIndex))
            { prog := { prog0 with totalVideos := urls.length }
              successful := 0, failed := 0, skipped := 0,
              invoked := [] }).skipped
        invoked :=
          ((sliceUrls urls (max cfg.startIndex prog0.lastVideoIndex)
              cfg.maxVideos).enum.foldl
            (downloadStep attempt (max cfg.startIndex prog0.lastVideoIndex))
            { prog := { prog0 with totalVideos := urls.length }
              successful := 0, failed := 0, skipped := 0,
              invoked := [] }).invoked } := by
  unfold downloadPlaylist
  rw [he, hc, hu]
  rfl

end YtDl

/-! ## Proofs about the uploaders (`part_000` and `s3Uploader.js`) -/

namespace Ytd

lemma lookupAssoc_setAssoc_self {α : Type} (m : List (String × α)) (k : String)
    (v : α) : lookupAssoc (setAssoc m k v) k = some v := by
  induction m with
  | nil => simp [setAssoc, lookupAssoc]
  | cons kv rest ih =>
    obtain ⟨k0, v0⟩ := kv
    by_cases h : k0 = k
    · subst h
      simp [setAssoc, lookupAssoc]
    · simp only [setAssoc]
      rw [if_neg h]
      simp only [lookupAssoc, List.find?_cons]
      rw [show ((k0, v0).1 == k) = false from by simpa using h]
      exact ih

lemma lookupAssoc_setAssoc_other {α : Type} (m : List (String × α))
    (k k' : String) (v : α) (h : k' ≠ k) :
    lookupAssoc (setAssoc m k v) k' = lookupAssoc m k' := by
  induction m with
  | nil =>
    unfold setAssoc lookupAssoc
    rw [List.find?_cons_of_neg _ (by simpa using fun he => h he.symm),
      List.find?_nil]
  | cons kv rest ih =>
    obtain ⟨k0, v0⟩ := kv
    by_cases hk : k0 = k
    · subst hk
      rw [show setAssoc ((k0, v0) :: rest) k0 v = (k0, v) :: rest from by
        simp [setAssoc]]
      unfold lookupAssoc
      rw [List.find?_cons_of_neg _ (by simpa using fun he => h he.symm),
        List.find?_cons_of_neg _ (by simpa using fun he => h he.symm)]
    · rw [show setAssoc ((k0, v0) :: rest) k v = (k0, v0) :: setAssoc rest k v from by
        simp [setAssoc, hk]]
      by_cases hb : k0 = k'
      · subst hb
        unfold lookupAssoc
        rw [List.find?_cons_of_pos _ (by simp), List.find?_cons_of_pos _ (by simp)]
      · unfold lookupAssoc at ih ⊢
        rw [List.find?_cons_of_neg _ (by simpa using hb),
          List.find?_cons_of_neg _ (by simpa using hb)]
        exact ih

end Ytd

namespace S3A

open Ytd

/-- One loop iteration appends exactly one outcome for its file. -/
lemma processStep_outcome (bucketName : String) (hashOf : String → Option String)
    (uploadOk moveOk : String → Bool) (st : ProcState) (file : MediaFile) :
    ∃ o, (processStep bucketName hashOf uploadOk moveOk st file).outcomes =
      st.outcomes ++ [(file.name, o)] := by
  unfold processStep
  split
  · exact ⟨.skippedDup, rfl⟩
  · split
    · split
      · exact ⟨.uploadedMoved, rfl⟩
      · exact ⟨.uploadedMoveFailed, rfl⟩
    · exact ⟨.uploadFailed, rfl⟩

/-- The loop processes every file in its list: one outcome per file, in
order, regardless of the upload/move results. -/
lemma processLoop_outcomes (bucketName : String) (hashOf : String → Option String)
    (uploadOk moveOk : String → Bool) (fs : List MediaFile) (st : ProcState) :
    ((fs.foldl (processStep bucketName hashOf uploadOk moveOk) st).outcomes.map
      Prod.fst) = st.outcomes.map Prod.fst ++ fs.map MediaFile.name := by
  induction fs generalizing st with
  | nil => simp
  | cons f rest ih =>
    simp only [List.foldl_cons, List.map_cons]
    rw [ih]
    obtain ⟨o, ho⟩ := processStep_outcome bucketName hashOf uploadOk moveOk st f
    rw [ho]
    simp

/-- Session-stats bookkeeping of the loop, expressed over the recorded
outcomes. -/
lemma processLoop_stats (bucketName : String) (hashOf : String → Option String)
    (uploadOk moveOk : String → Bool) (fs : List MediaFile) (st : ProcState)
    (h1 : st.stats.uploaded =
      st.outcomes.countP (fun q => q.2 == FileOutcome.uploadedMoved))
    (h2 : st.stats.failed =
      st.outcomes.countP (fun q =>
        q.2 == FileOutcome.uploadFailed || q.2 == FileOutcome.uploadedMoveFailed))
    (h3 : st.stats.skipped =
      st.outcomes.countP (fun q => q.2 == FileOutcome.skippedDup)) :
    (fs.foldl (processStep bucketName hashOf uploadOk moveOk) st).stats.uploaded =
      (fs.foldl (processStep bucketName hashOf uploadOk moveOk) st).outcomes.countP
        (fun q => q.2 == FileOutcome.uploadedMoved) ∧
    (fs.foldl (processStep bucketName hashOf uploadOk moveOk) st).stats.failed =
      (fs.foldl (processStep bucketName hashOf uploadOk moveOk) st).outcomes.countP
        (fun q =>
          q.2 == FileOutcome.uploadFailed || q.2 == FileOutcome.uploadedMoveFailed) ∧
    (fs.foldl (processStep bucketName hashOf uploadOk moveOk) st).stats.skipped =
      (fs.foldl (processStep bucketName hashOf uploadOk moveOk) st).outcomes.countP
        (fun q => q.2 == FileOutcome.skippedDup) := by
  induction fs generalizing st with
  | nil => exact ⟨h1, h2, h3⟩
  | cons f rest ih =>
    simp only [List.foldl_cons]
    apply ih
    all_goals unfold processStep
    all_goals split
    · simp [List.countP_append, h1]
    · split
      · split
        · simp [List.countP_append, h1]
        · simp [List.countP_append, h1]
      · simp [List.countP_append, h1]
    · simp [List.countP_append, h2]
    · split
      · split
        · simp [List.countP_append, h2]
        · simp [List.countP_append, h2]
      · simp [List.countP_append, h2]
    · simp [List.countP_append, h3]
    · split
      · split
        · simp [List.countP_append, h3]
        · simp [List.countP_append, h3]
      · simp [List.countP_append, h3]

/-- Retention: a unit whose upload succeeded keeps its completed record in
the progress store for the rest of the run, even when its move failed. -/
lemma processLoop_retention (bucketName : String)
    (hashOf : String → Option String) (uploadOk moveOk : String → Bool)
    (fs : List MediaFile) (st : ProcState)
    (hinv : ∀ name,
      ((name, FileOutcome.uploadedMoved) ∈ st.outcomes ∨
        (name, FileOutcome.uploadedMoveFailed) ∈ st.outcomes) →
      ∃ r, lookupAssoc st.progress.uploadedFiles name = some r ∧
        r.status = "completed") :
    ∀ name,
      ((name, FileOutcome.uploadedMoved) ∈
          (fs.foldl (processStep bucketName hashOf uploadOk moveOk) st).outcomes ∨
        (name, FileOutcome.uploadedMoveFailed) ∈
          (fs.foldl (processStep bucketName hashOf uploadOk moveOk) st).outcomes) →
      ∃ r, lookupAssoc
          (fs.foldl (processStep bucketName hashOf uploadOk moveOk)
            st).progress.uploadedFiles name = some r ∧
        r.status = "completed" := by
  induction fs generalizing st with
  | nil => exact hinv
  | cons f rest ih =>
    simp only [List.foldl_cons]
    apply ih
    unfold processStep
    split
    · intro name hname
      apply hinv name
      rcases hname with h | h <;> rcases List.mem_append.1 h with h' | h'
      · exact Or.inl h'
      · cases List.mem_singleton.1 h'
      · exact Or.inr h'
      · cases List.mem_singleton.1 h'
    · split
      · split
        · intro name hname
          by_cases hn : name = f.name
          · subst hn
            exact ⟨_, lookupAssoc_setAssoc_self _ _ _, rfl⟩
          · rw [show (logUpload bucketName st.progress f.name
                ("media/" ++ f.name) f.size f.hash).uploadedFiles =
                setAssoc st.progress.uploadedFiles f.name
                  { s3Key := "media/" ++ f.name, fileSizeBytes := f.size,
                    fileHash := f.hash, status := "completed",
                    bucket := bucketName } from rfl,
              lookupAssoc_setAssoc_other _ _ _ _ hn]
            apply hinv name
            rcases hname with h' | h' <;> rcases List.mem_append.1 h' with h'' | h''
            · exact Or.inl h''
            · exact absurd (congrArg Prod.fst (List.mem_singleton.1 h'')) hn
            · exact Or.inr h''
            · exact absurd (congrArg Prod.fst (List.mem_singleton.1 h'')) hn
        · intro name hname
          by_cases hn : name = f.name
          · subst hn
            exact ⟨_, lookupAssoc_setAssoc_self _ _ _, rfl⟩
          · rw [show (logUpload bucketName st.progress f.name
                ("media/" ++ f.name) f.size f.hash).uploadedFiles =
                setAssoc st.progress.uploadedFiles f.name
                  { s3Key := "media/" ++ f.name, fileSizeBytes := f.size,
                    fileHash := f.hash, status := "completed",
                    bucket := bucketName } from rfl,
              lookupAssoc_setAssoc_other _ _ _ _ hn]
            apply hinv name
            rcases hname with h' | h' <;> rcases List.mem_append.1 h' with h'' | h''
            · exact Or.inl h''
            · exact absurd (congrArg Prod.fst (List.mem_singleton.1 h'')) hn
            · exact Or.inr h''
            · exact absurd (congrArg Prod.fst (List.mem_singleton.1 h'')) hn
      · intro name hname
        apply hinv name
        rcases hname with h | h <;> rcases List.mem_append.1 h with h' | h'
        · exact Or.inl h'
        · cases List.mem_singleton.1 h'
        · exact Or.inr h'
        · cases List.mem_singleton.1 h'

end S3A

namespace S3B

open Ytd

/-- One loop iteration appends exactly one outcome for its file. -/
lemma processStep_outcome_delete (bucketName : String) (uploadOk deleteOk : String → Bool)
    (st : ProcState) (file : MediaFile) :
    ∃ o, (processStep bucketName uploadOk deleteOk st file).outcomes =
      st.outcomes ++ [(file.name, o)] := by
  unfold processStep
  split
  · split
    · exact ⟨.uploadedDeleted, rfl⟩
    · exact ⟨.uploadedDeleteFailed, rfl⟩
  · exact ⟨.uploadFailed, rfl⟩

/-- Session-stats bookkeeping of the loop: a failed deletion still counts
the unit as uploaded. -/
lemma processLoop_stats_delete (bucketName : String) (uploadOk deleteOk : String → Bool)
    (fs : List MediaFile) (st : ProcState)
    (h1 : st.stats.uploaded =
      st.outcomes.countP (fun q =>
        q.2 == FileOutcome.uploadedDeleted || q.2 == FileOutcome.uploadedDeleteFailed))
    (h2 : st.stats.deleted =
      st.outcomes.countP (fun q => q.2 == FileOutcome.uploadedDeleted))
    (h3 : st.stats.failed =
      st.outcomes.countP (fun q => q.2 == FileOutcome.uploadFailed)) :
    (fs.foldl (processStep bucketName uploadOk deleteOk) st).stats.uploaded =
      (fs.foldl (processStep bucketName uploadOk deleteOk) st).outcomes.countP
        (fun q =>
          q.2 == FileOutcome.uploadedDeleted ||
            q.2 == FileOutcome.uploadedDeleteFailed) ∧
    (fs.foldl (processStep bucketName uploadOk deleteOk) st).stats.deleted =
      (fs.foldl (processStep bucketName uploadOk deleteOk) st).outcomes.countP
        (fun q => q.2 == FileOutcome.uploadedDeleted) ∧
    (fs.foldl (processStep bucketName uploadOk deleteOk) st).stats.failed =
      (fs.foldl (processStep bucketName uploadOk deleteOk) st).outcomes.countP
        (fun q => q.2 == FileOutcome.uploadFailed) := by
  induction fs generalizing st with
  | nil => exact ⟨h1, h2, h3⟩
  | cons f rest ih =>
    simp only [List.foldl_cons]
    apply ih
    all_goals unfold processStep
    all_goals split
    · split
      · simp [List.countP_append, h1]
      · simp [List.countP_append, h1]
    · simp [List.countP_append, h1]
    · split
      · simp [List.countP_append, h2]
      · simp [List.countP_append, h2]
    · simp [List.countP_append, h2]
    · split
      · simp [List.countP_append, h3]
      · simp [List.countP_append, h3]
    · simp [List.countP_append, h3]

/-- Retention in the `s3Uploader.js` variant: an uploaded unit keeps its
completed record in both the progress store and the permanent history, even
when the local deletion failed. -/
lemma processLoop_retention_delete (bucketName : String)
    (uploadOk deleteOk : String → Bool) (fs : List MediaFile) (st : ProcState)
    (hinv : ∀ name,
      ((name, FileOutcome.uploadedDeleted) ∈ st.outcomes ∨
        (name, FileOutcome.uploadedDeleteFailed) ∈ st.outcomes) →
      (∃ r, lookupAssoc st.progress.uploadedFiles name = some r ∧
        r.status = "completed") ∧
      (∃ r, lookupAssoc st.history.files name = some r ∧
        r.status = "completed")) :
    ∀ name,
      ((name, FileOutcome.uploadedDeleted) ∈
          (fs.foldl (processStep bucketName uploadOk deleteOk) st).outcomes ∨
        (name, FileOutcome.uploadedDeleteFailed) ∈
          (fs.foldl (processStep bucketName uploadOk deleteOk) st).outcomes) →
      (∃ r, lookupAssoc
          (fs.foldl (processStep bucketName uploadOk deleteOk)
            st).progress.uploadedFiles name = some r ∧ r.status = "completed") ∧
      (∃ r, lookupAssoc
          (fs.foldl (processStep bucketName uploadOk deleteOk)
            st).history.files name = some r ∧ r.status = "completed") := by
  induction fs generalizing st with
  | nil => exact hinv
  | cons f rest ih =>
    simp only [List.foldl_cons]
    apply ih
    unfold processStep
    split
    · split
      · intro name hname
        by_cases hn : name = f.name
        · subst hn
          exact ⟨⟨_, lookupAssoc_setAssoc_self _ _ _, rfl⟩,
            ⟨_, lookupAssoc_setAssoc_self _ _ _, rfl⟩⟩
        · rw [show (logUpload bucketName st.progress st.history f.name
              ("media/" ++ f.name) f.size f.hash).1.uploadedFiles =
              setAssoc st.progress.uploadedFiles f.name
                { s3Key := "media/" ++ f.name, fileSizeBytes := f.size,
                  fileHash := f.hash, status := "completed",
                  bucket := bucketName, deleted := true } from rfl,
            show (logUpload bucketName st.progress st.history f.name
              ("media/" ++ f.name) f.size f.hash).2.files =
              setAssoc st.history.files f.name
                { s3Key := "media/" ++ f.name, fileSizeBytes := f.size,
                  fileHash := f.hash, status := "completed",
                  bucket := bucketName, deleted := true } from rfl,
            lookupAssoc_setAssoc_other _ _ _ _ hn,
            lookupAssoc_setAssoc_other _ _ _ _ hn]
          apply hinv name
          rcases hname with h' | h' <;> rcases List.mem_append.1 h' with h'' | h''
          · exact Or.inl h''
          · exact absurd (congrArg Prod.fst (List.mem_singleton.1 h'')) hn
          · exact Or.inr h''
          · exact absurd (congrArg Prod.fst (List.mem_singleton.1 h'')) hn
      · intro name hname
        by_cases hn : name = f.name
        · subst hn
          exact ⟨⟨_, lookupAssoc_setAssoc_self _ _ _, rfl⟩,
            ⟨_, lookupAssoc_setAssoc_self _ _ _, rfl⟩⟩
        · rw [show (logUpload bucketName st.progress st.history f.name
              ("media/" ++ f.name) f.size f.hash).1.uploadedFiles =
              setAssoc st.progress.uploadedFiles f.name
                { s3Key := "media/" ++ f.name, fileSizeBytes := f.size,
                  fileHash := f.hash, status := "completed",
                  bucket := bucketName, deleted := true } from rfl,
            show (logUpload bucketName st.progress st.history f.name
              ("media/" ++ f.name) f.size f.hash).2.files =
              setAssoc st.history.files f.name
                { s3Key := "media/" ++ f.name, fileSizeBytes := f.size,
                  fileHash := f.hash, status := "completed",
                  bucket := bucketName, deleted := true } from rfl,
            lookupAssoc_setAssoc_other _ _ _ _ hn,
            lookupAssoc_setAssoc_other _ _ _ _ hn]
          apply hinv name
          rcases hname with h' | h' <;> rcases List.mem_append.1 h' with h'' | h''
          · exact Or.inl h''
          · exact absurd (congrArg Prod.fst (List.mem_singleton.1 h'')) hn
          · exact Or.inr h''
          · exact absurd (congrArg Prod.fst (List.mem_singleton.1 h'')) hn
    · intro name hname
      apply hinv name
      rcases hname with h | h <;> rcases List.mem_append.1 h with h' | h'
      · exact Or.inl h'
      · cases List.mem_singleton.1 h'
      · exact Or.inr h'
      · cases List.mem_singleton.1 h'

end S3B

/-! ## Claims -/

/-- **C1.** For every input filename list given to the pair matchers, no
filename appears in more than one returned pair: each file is consumed as
the video side or the audio side of at most one pair within a single
invocation of `findMatchingPairs` — both for the progressive `vidMerger.js`
matcher (any filesystem oracle) and for the exact-stem `merger.js`
matcher. -/
theorem matcher_at_most_one_use (alreadyMerged : String → Bool)
    (files : List String) (name : String) :
    VidMerger.uses name (VidMerger.findMatchingPairs alreadyMerged files) ≤ 1 ∧
    Merger.uses name (Merger.findMatchingPairs files) ≤ 1 :=
  ⟨VidMerger.vidMerger_uses_le_one alreadyMerged files name,
   Merger.merger_uses_le_one files name⟩

/-- **C4.** Evaluation of both matchers at the spec's example input
`["talk_video.mp4", "talk_audio.webm", "orphan_video.mp4"]`: because
`.webm` is a member of both extension lists and the video list is tested
first, `talk_audio.webm` is classified as a video candidate, so no pair is
produced at all — against the spec's expected one `talk` pair plus one
`orphan` video-only entry.  In `merger.js` the same file is additionally
reported as audio-only, i.e. it is classified inconsistently within one
invocation. -/
theorem matcher_webm_example_eval :
    VidMerger.findMatchingPairs (fun _ => false)
      ["talk_video.mp4", "talk_audio.webm", "orphan_video.mp4"] = [] ∧
    (VidMerger.unusedVideos (fun _ => false)
      ["talk_video.mp4", "talk_audio.webm", "orphan_video.mp4"]).map
        VidMerger.FileInfo.filename =
      ["talk_video.mp4", "talk_audio.webm", "orphan_video.mp4"] ∧
    Merger.findMatchingPairs
      ["talk_video.mp4", "talk_audio.webm", "orphan_video.mp4"] = [] ∧
    Merger.findVideoOnlyFiles
      ["talk_video.mp4", "talk_audio.webm", "orphan_video.mp4"]
      (Merger.findMatchingPairs
        ["talk_video.mp4", "talk_audio.webm", "orphan_video.mp4"]) =
      ["talk_video.mp4", "talk_audio.webm", "orphan_video.mp4"] ∧
    Merger.findAudioOnlyFiles
      ["talk_video.mp4", "talk_audio.webm", "orphan_video.mp4"]
      (Merger.findMatchingPairs
        ["talk_video.mp4", "talk_audio.webm", "orphan_video.mp4"]) =
      ["talk_audio.webm"] :=
  ⟨rfl, rfl, rfl, rfl, rfl⟩

/-- **C8 (counterexample).** In `merger.js`, a recognized file can vanish
from every output: with `["a_video.mp4", "a.mp4", "a_audio.mp3"]` the two
video files share the stem `a`, the later `a.mp4` overwrites `a_video.mp4`
in the grouping map, the stem is paired, and `a_video.mp4` — a recognized
video file — appears in no pair, no video-only entry and no audio-only
entry. -/
theorem merger_drops_recognized_file_counterexample :
    Merger.videoExtensions.contains (Ytd.lowerExt "a_video.mp4") = true ∧
    Merger.findMatchingPairs ["a_video.mp4", "a.mp4", "a_audio.mp3"] =
      [{ baseName := "a", video := "a.mp4", audio := "a_audio.mp3",
         output := "a.mp4" }] ∧
    Merger.findVideoOnlyFiles ["a_video.mp4", "a.mp4", "a_audio.mp3"]
      (Merger.findMatchingPairs ["a_video.mp4", "a.mp4", "a_audio.mp3"]) = [] ∧
    Merger.findAudioOnlyFiles ["a_video.mp4", "a.mp4", "a_audio.mp3"]
      (Merger.findMatchingPairs ["a_video.mp4", "a.mp4", "a_audio.mp3"]) = [] :=
  ⟨rfl, rfl, rfl, rfl⟩

/-- **C8 (amended).** For the `vidMerger.js` matcher the accounting does
hold: every recognized input filename appears exactly once across the
pairs, the unmatched-video report and the unmatched-audio report.  (For
`merger.js` the property fails when two recognized files share a stem and
media class; see the counterexample.) -/
theorem vidMerger_accounts_every_recognized_file (alreadyMerged : String → Bool)
    (files : List String) (name : String) (hmem : name ∈ files)
    (hrec : VidMerger.VIDEO_EXTENSIONS.contains (Ytd.lowerExt name) = true ∨
      VidMerger.AUDIO_EXTENSIONS.contains (Ytd.lowerExt name) = true) :
    VidMerger.uses name (VidMerger.findMatchingPairs alreadyMerged files) +
      ((if name ∈ (VidMerger.unusedVideos alreadyMerged files).map
          VidMerger.FileInfo.filename then 1 else 0) +
        (if name ∈ (VidMerger.unusedAudios alreadyMerged files).map
          VidMerger.FileInfo.filename then 1 else 0)) = 1 :=
  VidMerger.vidMerger_no_loss alreadyMerged files name hmem hrec

/-- Witness for C8: with `["talk_video.mp4", "other_audio.mp3"]` the
recognized file `talk_video.mp4` is accounted for exactly once. -/
theorem vidMerger_accounts_every_recognized_file_witness :
    "talk_video.mp4" ∈ ["talk_video.mp4", "other_audio.mp3"] ∧
    VidMerger.uses "talk_video.mp4"
        (VidMerger.findMatchingPairs (fun _ => false)
          ["talk_video.mp4", "other_audio.mp3"]) +
      ((if "talk_video.mp4" ∈ (VidMerger.unusedVideos (fun _ => false)
          ["talk_video.mp4", "other_audio.mp3"]).map
          VidMerger.FileInfo.filename then 1 else 0) +
        (if "talk_video.mp4" ∈ (VidMerger.unusedAudios (fun _ => false)
          ["talk_video.mp4", "other_audio.mp3"]).map
          VidMerger.FileInfo.filename then 1 else 0)) = 1 :=
  ⟨by decide,
   vidMerger_accounts_every_recognized_file (fun _ => false)
     ["talk_video.mp4", "other_audio.mp3"] "talk_video.mp4" (by decide)
     (Or.inl (by decide))⟩

/-- **C9 (counterexample).** The recorded `matchLevel` is not the minimum
combined truncation depth over all video-term/audio-term combinations: for
`["aaaa_bbbb.mp4", "aaaa_bbbb_cccc_dddd.mp3", "aaaa.mp3"]`, the video is
paired at level 2 (term 0 of the video against term 2 of the first audio),
although depth 1 (term 1 of the video against term 0 of `aaaa.mp3`) is
achievable. -/
theorem matchLevel_not_global_min_counterexample :
    (VidMerger.findMatchingPairs (fun _ => false)
      ["aaaa_bbbb.mp4", "aaaa_bbbb_cccc_dddd.mp3", "aaaa.mp3"]).map
        (fun p => (p.video, p.audio, p.matchLevel)) =
      [("aaaa_bbbb.mp4", "aaaa_bbbb_cccc_dddd.mp3", 2)] ∧
    VidMerger.specMinCombinedDepth []
      (VidMerger.mkFileInfo "aaaa_bbbb.mp4")
      (VidMerger.classifyFiles
        ["aaaa_bbbb.mp4", "aaaa_bbbb_cccc_dddd.mp3", "aaaa.mp3"]).2 = some 1 :=
  ⟨rfl, rfl⟩

/-- **C9 (amended).** The fuzzy matcher commits to the first (most
specific) video search term for which any unused audio file matches; the
recorded level is minimal only among the combinations of that one video
term — earlier terms admit no match at all, and later terms are never
examined. -/
theorem findBestMatch_first_term_minimality (used : List String)
    (video : VidMerger.FileInfo) (audios : List VidMerger.FileInfo)
    (b : VidMerger.FileInfo) (lvl : Nat)
    (h : VidMerger.findBestMatch used video audios = some (b, lvl)) :
    ∃ pre p post, video.searchTerms.enum = pre ++ p :: post ∧
      (∀ q ∈ pre, VidMerger.levelsAt used audios q.2 q.1 = []) ∧
      lvl ∈ VidMerger.levelsAt used audios p.2 p.1 ∧
      ∀ y ∈ VidMerger.levelsAt used audios p.2 p.1, lvl ≤ y :=
  VidMerger.findBestMatch_min used video audios b lvl h

/-- Witness for C9: the characterisation applied to the counterexample
input. -/
theorem findBestMatch_first_term_minimality_witness :
    ∃ pre p post,
      (VidMerger.mkFileInfo "aaaa_bbbb.mp4").searchTerms.enum =
        pre ++ p :: post ∧
      (∀ q ∈ pre, VidMerger.levelsAt []
        (VidMerger.classifyFiles
          ["aaaa_bbbb.mp4", "aaaa_bbbb_cccc_dddd.mp3", "aaaa.mp3"]).2 q.2 q.1 = []) ∧
      2 ∈ VidMerger.levelsAt []
        (VidMerger.classifyFiles
          ["aaaa_bbbb.mp4", "aaaa_bbbb_cccc_dddd.mp3", "aaaa.mp3"]).2 p.2 p.1 ∧
      ∀ y ∈ VidMerger.levelsAt []
        (VidMerger.classifyFiles
          ["aaaa_bbbb.mp4", "aaaa_bbbb_cccc_dddd.mp3", "aaaa.mp3"]).2 p.2 p.1,
        2 ≤ y :=
  findBestMatch_first_term_minimality []
    (VidMerger.mkFileInfo "aaaa_bbbb.mp4")
    (VidMerger.classifyFiles
      ["aaaa_bbbb.mp4", "aaaa_bbbb_cccc_dddd.mp3", "aaaa.mp3"]).2
    (VidMerger.mkFileInfo "aaaa_bbbb_cccc_dddd.mp3") 2 (by rfl)

/-- **C5 (counterexample).** `isFileInHistory` (from `s3Uploader.js`)
returns `true` for a file whose stored fingerprint (`"aaa"`) differs from
the current one (`"bbb"`): a record with the same filename is enough, so
the unit is NOT treated as changed, against the claim. -/
theorem isFileInHistory_hash_mismatch_counterexample :
    Ytd.lookupAssoc
      ({ files := [("f.mp4",
          { s3Key := "media/f.mp4", fileSizeBytes := 100, fileHash := some "aaa",
            status := "completed", bucket := "b", deleted := true })]
         metadata := { totalUploads := 1, totalSizeUploaded := 100 } } :
        S3B.UploadHistory).files "f.mp4" =
      some { s3Key := "media/f.mp4", fileSizeBytes := 100, fileHash := some "aaa",
             status := "completed", bucket := "b", deleted := true } ∧
    ("aaa" : String) ≠ "bbb" ∧
    S3B.isFileInHistory
      { files := [("f.mp4",
          { s3Key := "media/f.mp4", fileSizeBytes := 100, fileHash := some "aaa",
            status := "completed", bucket := "b", deleted := true })]
        metadata := { totalUploads := 1, totalSizeUploaded := 100 } }
      "f.mp4" (some "bbb") = true :=
  ⟨by decide, by decide, by decide⟩

/-- **C5 (amended).** Only `isAlreadyUploaded` (part_000) performs the
fingerprint verification: on a hash mismatch it returns `false` and logs
the changed-file warning, so the unit is re-processed.  `isFileInHistory`
(`s3Uploader.js`) ignores the mismatch and returns `true` whenever any
record with that filename exists. -/
theorem stale_fingerprint_check (progress : S3A.Progress)
    (hashOf : String → Option String) (filename fp rh ch : String)
    (uploadRecord : S3A.UploadRecord) (history : S3B.UploadHistory)
    (fname : String) (fh : Option String) (r : S3B.UploadRecord)
    (hrec : Ytd.lookupAssoc progress.uploadedFiles filename = some uploadRecord)
    (hrh : uploadRecord.fileHash = some rh)
    (hch : hashOf fp = some ch) (hne : ch ≠ rh)
    (hhist : Ytd.lookupAssoc history.files fname = some r) :
    S3A.isAlreadyUploaded progress hashOf filename (some fp) = (false, true) ∧
    S3B.isFileInHistory history fname fh = true := by
  constructor
  · unfold S3A.isAlreadyUploaded
    rw [hrec]
    dsimp only
    rw [hrh]
    dsimp only
    rw [hch]
    dsimp only
    rw [if_pos hne]
  · unfold S3B.isFileInHistory
    rw [hhist]
    dsimp only
    cases fh with
    | none => rfl
    | some h =>
      dsimp only
      exact ite_self true

/-- Witness for C5: a concrete store with a stale fingerprint is detected
by `isAlreadyUploaded`, while `isFileInHistory` still reports the file as
uploaded. -/
theorem stale_fingerprint_check_witness :
    S3A.isAlreadyUploaded
      { uploadedFiles := [("f.mp4",
          { s3Key := "media/f.mp4", fileSizeBytes := 100, fileHash := some "aaa",
            status := "completed", bucket := "b" })]
        session := { totalFiles := 1, completedFiles := 1 } }
      (fun _ => some "bbb") "f.mp4" (some "/src/f.mp4") = (false, true) ∧
    S3B.isFileInHistory
      { files := [("g.mp4",
          { s3Key := "media/g.mp4", fileSizeBytes := 1, fileHash := some "x",
            status := "completed", bucket := "b", deleted := true })]
        metadata := { totalUploads := 1, totalSizeUploaded := 1 } }
      "g.mp4" (some "y") = true :=
  stale_fingerprint_check
    { uploadedFiles := [("f.mp4",
        { s3Key := "media/f.mp4", fileSizeBytes := 100, fileHash := some "aaa",
          status := "completed", bucket := "b" })]
      session := { totalFiles := 1, completedFiles := 1 } }
    (fun _ => some "bbb") "f.mp4" "/src/f.mp4" "aaa" "bbb"
    { s3Key := "media/f.mp4", fileSizeBytes := 100, fileHash := some "aaa",
      status := "completed", bucket := "b" }
    { files := [("g.mp4",
        { s3Key := "media/g.mp4", fileSizeBytes := 1, fileHash := some "x",
          status := "completed", bucket := "b", deleted := true })]
      metadata := { totalUploads := 1, totalSizeUploaded := 1 } }
    "g.mp4" (some "y")
    { s3Key := "media/g.mp4", fileSizeBytes := 1, fileHash := some "x",
      status := "completed", bucket := "b", deleted := true }
    (by decide) (by decide) rfl (by decide) (by decide)

/-- **C6.** `loadProgress` (both the `youtubescrape.js` downloader store
and the `s3Uploader.js`/part_000 upload store): a missing backing file
yields the fresh empty state without a warning, a present-but-unparseable
file yields the fresh empty state with the corruption warning logged, and a
readable file yields its parsed contents — loading never fails. -/
theorem loadProgress_graceful :
    (∀ parsed : Option YtDl.GlobalProgress,
      YtDl.loadProgress false parsed = (YtDl.freshGlobalProgress, false)) ∧
    YtDl.loadProgress true none = (YtDl.freshGlobalProgress, true) ∧
    (∀ g : YtDl.GlobalProgress, YtDl.loadProgress true (some g) = (g, false)) ∧
    (∀ parsed : Option S3B.Progress,
      S3B.loadProgress false parsed = (S3B.freshProgress, false)) ∧
    S3B.loadProgress true none = (S3B.freshProgress, true) ∧
    (∀ p : S3B.Progress, S3B.loadProgress true (some p) = (p, false)) ∧
    (∀ parsed : Option S3A.Progress,
      S3A.loadProgress false parsed = (S3A.freshProgress, false)) ∧
    S3A.loadProgress true none = (S3A.freshProgress, true) :=
  ⟨fun _ => rfl, rfl, fun _ => rfl, fun _ => rfl, rfl, fun _ => rfl,
   fun _ => rfl, rfl⟩

/-- **C2.** An item that already has a `downloaded` record in the progress
store is never re-attempted: re-running `downloadPlaylist` over the same
input never invokes the download operation for that index, whatever the
attempt oracle, configuration and URL list. -/
theorem downloader_skips_completed (attempt : Nat → YtDl.AttemptResult)
    (cfg : YtDl.PlaylistConfig) (prog0 : YtDl.PlaylistProgress)
    (urls : List String) (idx : Nat)
    (h : YtDl.isVideoAlreadyDownloaded prog0 idx = true) :
    idx ∉ (YtDl.downloadPlaylist attempt cfg prog0 urls).invoked := by
  by_cases he : cfg.enabled = true
  · by_cases hc : prog0.completed = true
    · rw [YtDl.downloadPlaylist_completed attempt cfg prog0 urls he hc]
      simp
    · have hc' : prog0.completed = false := Bool.eq_false_iff.mpr hc
      by_cases hu : urls.isEmpty = true
      · rw [YtDl.downloadPlaylist_empty attempt cfg prog0 urls he hc' hu]
        simp
      · rw [YtDl.downloadPlaylist_main attempt cfg prog0 urls he hc'
          (Bool.eq_false_iff.mpr hu)]
        exact (YtDl.downloadLoop_not_invoked attempt
          (max cfg.startIndex prog0.lastVideoIndex)
          (YtDl.sliceUrls urls (max cfg.startIndex prog0.lastVideoIndex)
            cfg.maxVideos).enum
          { prog := { prog0 with totalVideos := urls.length }
            successful := 0, failed := 0, skipped := 0, invoked := [] }
          idx h (by simp)).2
  · rw [YtDl.downloadPlaylist_disabled attempt cfg prog0 urls
      (Bool.eq_false_iff.mpr he)]
    simp

/-- Witness for C2: index 1 is already recorded as downloaded, and a rerun
over the same two-video playlist does not invoke it (only index 2 is
attempted). -/
theorem downloader_skips_completed_witness :
    YtDl.isVideoAlreadyDownloaded
      { completed := false, lastVideoIndex := 0,
        downloadedVideos :=
          [{ index := 1, url := "u1", filename := "f1", status := "downloaded" }],
        skippedVideos := [], failedVideos := [], totalVideos := 2 } 1 = true ∧
    1 ∉ (YtDl.downloadPlaylist (fun _ => YtDl.AttemptResult.success "t")
      { name := "P", url := "purl", maxVideos := none, startIndex := 0,
        enabled := true }
      { completed := false, lastVideoIndex := 0,
        downloadedVideos :=
          [{ index := 1, url := "u1", filename := "f1", status := "downloaded" }],
        skippedVideos := [], failedVideos := [], totalVideos := 2 }
      ["u1", "u2"]).invoked :=
  ⟨by decide,
   downloader_skips_completed (fun _ => YtDl.AttemptResult.success "t")
     { name := "P", url := "purl", maxVideos := none, startIndex := 0,
       enabled := true }
     { completed := false, lastVideoIndex := 0,
       downloadedVideos :=
         [{ index := 1, url := "u1", filename := "f1", status := "downloaded" }],
       skippedVideos := [], failedVideos := [], totalVideos := 2 }
     ["u1", "u2"] 1 (by decide)⟩

/-- **C3 (counterexample).** With `maxVideos := some 1` over a three-video
playlist, one processed item reaches `totalProcessed >= maxVideos`, so the
playlist is marked `completed` although only 1 of its 3 known items has a
terminal status. -/
theorem playlist_completed_below_total_counterexample :
    (YtDl.downloadPlaylist (fun _ => YtDl.AttemptResult.success "t")
      { name := "P", url := "purl", maxVideos := some 1, startIndex := 0,
        enabled := true }
      YtDl.freshPlaylistProgress ["u1", "u2", "u3"]).progress.completed = true ∧
    (YtDl.downloadPlaylist (fun _ => YtDl.AttemptResult.success "t")
      { name := "P", url := "purl", maxVideos := some 1, startIndex := 0,
        enabled := true }
      YtDl.freshPlaylistProgress
        ["u1", "u2", "u3"]).progress.downloadedVideos.length +
      (YtDl.downloadPlaylist (fun _ => YtDl.AttemptResult.success "t")
        { name := "P", url := "purl", maxVideos := some 1, startIndex := 0,
          enabled := true }
        YtDl.freshPlaylistProgress
          ["u1", "u2", "u3"]).progress.skippedVideos.length +
      (YtDl.downloadPlaylist (fun _ => YtDl.AttemptResult.success "t")
        { name := "P", url := "purl", maxVideos := some 1, startIndex := 0,
          enabled := true }
        YtDl.freshPlaylistProgress
          ["u1", "u2", "u3"]).progress.failedVideos.length = 1 ∧
    (YtDl.downloadPlaylist (fun _ => YtDl.AttemptResult.success "t")
      { name := "P", url := "purl", maxVideos := some 1, startIndex := 0,
        enabled := true }
      YtDl.freshPlaylistProgress ["u1", "u2", "u3"]).progress.totalVideos = 3 :=
  ⟨rfl, rfl, rfl⟩

/-- **C3 (amended).** `downloadPlaylist` sets `completed` only when the
playlist was already completed, or the count of downloaded+skipped+failed
records reaches the total known item count **or the configured `maxVideos`
cap** (the extra disjunct the code adds); the part_002 orchestrator marks a
playlist `processed` only when it was already processed, or every playlist
URL produced a successful download, every successful download was merged,
and every merged file was uploaded (all three stage counts line up). -/
theorem playlist_completion_conditions (attempt : Nat → YtDl.AttemptResult)
    (cfg : YtDl.PlaylistConfig) (prog0 : YtDl.PlaylistProgress)
    (urls : List String) (st : Orchestrator.PlaylistState)
    (purls : List String) (res : Orchestrator.StageResults) :
    ((YtDl.downloadPlaylist attempt cfg prog0 urls).progress.completed = true →
      prog0.completed = true ∨
      (YtDl.downloadPlaylist attempt cfg prog0
          urls).progress.downloadedVideos.length +
        (YtDl.downloadPlaylist attempt cfg prog0
          urls).progress.skippedVideos.length +
        (YtDl.downloadPlaylist attempt cfg prog0
          urls).progress.failedVideos.length ≥ urls.length ∨
      (YtDl.jsTruthy cfg.maxVideos = true ∧
        (YtDl.downloadPlaylist attempt cfg prog0
            urls).progress.downloadedVideos.length +
          (YtDl.downloadPlaylist attempt cfg prog0
            urls).progress.skippedVideos.length +
          (YtDl.downloadPlaylist attempt cfg prog0
            urls).progress.failedVideos.length ≥ cfg.maxVideos.getD 0)) ∧
    ((Orchestrator.processPlaylistStep st purls res).processed = true →
      st.processed = true ∨
      (res.downloadSuccessful.length = purls.length ∧
        res.mergedFiles.length = res.downloadSuccessful.length ∧
        res.uploadedFiles.length = res.mergedFiles.length)) := by
  constructor
  · intro h
    by_cases he : cfg.enabled = true
    · by_cases hc : prog0.completed = true
      · exact Or.inl hc
      · have hc' : prog0.completed = false := Bool.eq_false_iff.mpr hc
        by_cases hu : urls.isEmpty = true
        · rw [YtDl.downloadPlaylist_empty attempt cfg prog0 urls he hc' hu] at h
          exact Or.inl h
        · have hu' : urls.isEmpty = false := Bool.eq_false_iff.mpr hu
          rw [YtDl.downloadPlaylist_main attempt cfg prog0 urls he hc' hu'] at h ⊢
          revert h
          split
          · rename_i hcond
            intro _
            simp only [Bool.or_eq_true, Bool.and_eq_true, decide_eq_true_eq] at hcond
            rcases hcond with hcond | ⟨ht, hcond⟩
            · exact Or.inr (Or.inl hcond)
            · exact Or.inr (Or.inr ⟨ht, hcond⟩)
          · intro h
            rw [YtDl.downloadLoop_completed] at h
            exact Or.inl h
    · rw [YtDl.downloadPlaylist_disabled attempt cfg prog0 urls
        (Bool.eq_false_iff.mpr he)] at h
      exact Or.inl h
  · intro h
    unfold Orchestrator.processPlaylistStep at h
    split at h
    · exact Or.inl h
    · split at h
      · exact Or.inl h
      · split at h
        · rename_i hcond
          simp only [Bool.and_eq_true, beq_iff_eq] at hcond
          exact Or.inr ⟨hcond.1.1, hcond.1.2, hcond.2⟩
        · exact Or.inl h

/-- Witness for C3 (amended): the characterisation applied to the
`maxVideos`-capped run of the counterexample and to a fully successful
one-URL orchestrator playlist. -/
theorem playlist_completion_conditions_witness :
    (YtDl.freshPlaylistProgress.completed = true ∨
      (YtDl.downloadPlaylist (fun _ => YtDl.AttemptResult.success "t")
          { name := "P", url := "purl", maxVideos := some 1, startIndex := 0,
            enabled := true }
          YtDl.freshPlaylistProgress
          ["u1", "u2", "u3"]).progress.downloadedVideos.length +
        (YtDl.downloadPlaylist (fun _ => YtDl.AttemptResult.success "t")
          { name := "P", url := "purl", maxVideos := some 1, startIndex := 0,
            enabled := true }
          YtDl.freshPlaylistProgress
          ["u1", "u2", "u3"]).progress.skippedVideos.length +
        (YtDl.downloadPlaylist (fun _ => YtDl.AttemptResult.success "t")
          { name := "P", url := "purl", maxVideos := some 1, startIndex := 0,
            enabled := true }
          YtDl.freshPlaylistProgress
          ["u1", "u2", "u3"]).progress.failedVideos.length ≥
        (["u1", "u2", "u3"] : List String).length ∨
      (YtDl.jsTruthy (some 1) = true ∧
        (YtDl.downloadPlaylist (fun _ => YtDl.AttemptResult.success "t")
            { name := "P", url := "purl", maxVideos := some 1, startIndex := 0,
              enabled := true }
            YtDl.freshPlaylistProgress
            ["u1", "u2", "u3"]).progress.downloadedVideos.length +
          (YtDl.downloadPlaylist (fun _ => YtDl.AttemptResult.success "t")
            { name := "P", url := "purl", maxVideos := some 1, startIndex := 0,
              enabled := true }
            YtDl.freshPlaylistProgress
            ["u1", "u2", "u3"]).progress.skippedVideos.length +
          (YtDl.downloadPlaylist (fun _ => YtDl.AttemptResult.success "t")
            { name := "P", url := "purl", maxVideos := some 1, startIndex := 0,
              enabled := true }
            YtDl.freshPlaylistProgress
            ["u1", "u2", "u3"]).progress.failedVideos.length ≥
          (some 1 : Option Nat).getD 0)) ∧
    (Orchestrator.freshPlaylistState.processed = true ∨
      ((["f1"] : List String).length = (["url1"] : List String).length ∧
        (["f1"] : List String).length = (["f1"] : List String).length ∧
        (["f1"] : List String).length = (["f1"] : List String).length)) :=
  ⟨(playlist_completion_conditions (fun _ => YtDl.AttemptResult.success "t")
      { name := "P", url := "purl", maxVideos := some 1, startIndex := 0,
        enabled := true }
      YtDl.freshPlaylistProgress ["u1", "u2", "u3"]
      Orchestrator.freshPlaylistState ["url1"]
      { downloadSuccessful := ["f1"], mergedFiles := ["f1"],
        uploadedFiles := ["f1"] }).1 (by decide),
   (playlist_completion_conditions (fun _ => YtDl.AttemptResult.success "t")
      { name := "P", url := "purl", maxVideos := some 1, startIndex := 0,
        enabled := true }
      YtDl.freshPlaylistProgress ["u1", "u2", "u3"]
      Orchestrator.freshPlaylistState ["url1"]
      { downloadSuccessful := ["f1"], mergedFiles := ["f1"],
        uploadedFiles := ["f1"] }).2 (by decide)⟩

/-- **C7.** Failure isolation in one stage run: for the download runner,
whatever a unit's outcome — including a thrown error — every other
not-yet-downloaded position of the slice is still attempted, and a failure
is recorded (as a `failed` record) only for units whose own attempt threw;
for the part_000 upload runner, the loop emits exactly one outcome per
unprocessed file in order, regardless of the upload/move results. -/
theorem stage_failure_isolation (attempt : Nat → YtDl.AttemptResult)
    (cfg : YtDl.PlaylistConfig) (prog0 : YtDl.PlaylistProgress)
    (urls : List String) (i : Nat) (u : String)
    (he : cfg.enabled = true) (hc : prog0.completed = false)
    (hu : urls.isEmpty = false)
    (hmem : (i, u) ∈ (YtDl.sliceUrls urls
      (max cfg.startIndex prog0.lastVideoIndex) cfg.maxVideos).enum)
    (hnew : YtDl.isVideoAlreadyDownloaded prog0
      (max cfg.startIndex prog0.lastVideoIndex + i + 1) = false) :
    (max cfg.startIndex prog0.lastVideoIndex + i + 1) ∈
      (YtDl.downloadPlaylist attempt cfg prog0 urls).invoked ∧
    (∀ r ∈ (YtDl.downloadPlaylist attempt cfg prog0 urls).progress.failedVideos,
      r ∈ prog0.failedVideos ∨ attempt r.index = YtDl.AttemptResult.thrown) ∧
    (∀ (bucketName : String) (hashOf : String → Option String)
      (uploadOk moveOk : String → Bool) (progress0 : S3A.Progress)
      (mediaFiles : List S3A.MediaFile),
      (S3A.processFiles bucketName hashOf uploadOk moveOk progress0
        mediaFiles).outcomes.map Prod.fst =
        (S3A.unprocessedFiles hashOf
          { progress0 with session :=
            { progress0.session with totalFiles := mediaFiles.length } }
          mediaFiles).map S3A.MediaFile.name) := by
  refine ⟨?_, ?_, ?_⟩
  · rw [YtDl.downloadPlaylist_main attempt cfg prog0 urls he hc hu]
    exact YtDl.downloadLoop_invokes attempt
      (max cfg.startIndex prog0.lastVideoIndex)
      (YtDl.sliceUrls urls (max cfg.startIndex prog0.lastVideoIndex)
        cfg.maxVideos).enum
      { prog := { prog0 with totalVideos := urls.length }
        successful := 0, failed := 0, skipped := 0, invoked := [] }
      i u hmem (List.nodup_enum_map_fst _) hnew
  · rw [YtDl.downloadPlaylist_main attempt cfg prog0 urls he hc hu]
    intro r hr
    refine YtDl.downloadLoop_failed attempt
      (max cfg.startIndex prog0.lastVideoIndex)
      (YtDl.sliceUrls urls (max cfg.startIndex prog0.lastVideoIndex)
        cfg.maxVideos).enum
      { prog := { prog0 with totalVideos := urls.length }
        successful := 0, failed := 0, skipped := 0, invoked := [] }
      prog0.failedVideos (fun r hr => Or.inl hr) r ?_
    revert hr
    split
    · exact fun hr => hr
    · exact fun hr => hr
  · intro bucketName hashOf uploadOk moveOk progress0 mediaFiles
    by_cases hm : mediaFiles.isEmpty = true
    · rw [List.isEmpty_iff.mp hm]
      rfl
    · unfold S3A.processFiles
      rw [if_neg hm]
      by_cases hunp : (S3A.unprocessedFiles hashOf
          { progress0 with session :=
            { progress0.session with totalFiles := mediaFiles.length } }
          mediaFiles).isEmpty = true
      · rw [if_pos hunp]
        rw [List.isEmpty_iff.mp hunp]
        rfl
      · rw [if_neg hunp]
        rw [S3A.processLoop_outcomes]
        rfl

/-- Witness for C7: with a two-video playlist whose second attempt throws,
the second position is still attempted (both indices are invoked); the
other conjuncts are instantiated at the same run and at a two-file upload
batch whose first upload fails. -/
theorem stage_failure_isolation_witness :
    2 ∈ (YtDl.downloadPlaylist
      (fun n => if n = 2 then YtDl.AttemptResult.thrown
        else YtDl.AttemptResult.success "t")
      { name := "P", url := "purl", maxVideos := none, startIndex := 0,
        enabled := true }
      YtDl.freshPlaylistProgress ["u1", "u2"]).invoked ∧
    (S3A.processFiles "b" (fun _ => some "h") (fun _ => false) (fun _ => true)
      S3A.freshProgress
      [{ name := "a.mp4", path := "/s/a.mp4", size := 1, hash := some "h" },
       { name := "b.mp4", path := "/s/b.mp4", size := 2, hash := some "h" }]).outcomes.map
        Prod.fst =
      (S3A.unprocessedFiles (fun _ => some "h")
        { S3A.freshProgress with session :=
          { S3A.freshProgress.session with totalFiles := 2 } }
        [{ name := "a.mp4", path := "/s/a.mp4", size := 1, hash := some "h" },
         { name := "b.mp4", path := "/s/b.mp4", size := 2, hash := some "h" }]).map
        S3A.MediaFile.name :=
  ⟨(stage_failure_isolation
      (fun n => if n = 2 then YtDl.AttemptResult.thrown
        else YtDl.AttemptResult.success "t")
      { name := "P", url := "purl", maxVideos := none, startIndex := 0,
        enabled := true }
      YtDl.freshPlaylistProgress ["u1", "u2"] 1 "u2"
      (by decide) (by decide) (by decide) (by decide) (by decide)).1,
   (stage_failure_isolation
      (fun n => if n = 2 then YtDl.AttemptResult.thrown
        else YtDl.AttemptResult.success "t")
      { name := "P", url := "purl", maxVideos := none, startIndex := 0,
        enabled := true }
      YtDl.freshPlaylistProgress ["u1", "u2"] 1 "u2"
      (by decide) (by decide) (by decide) (by decide) (by decide)).2.2
     "b" (fun _ => some "h") (fun _ => false) (fun _ => true)
     S3A.freshProgress
     [{ name := "a.mp4", path := "/s/a.mp4", size := 1, hash := some "h" },
      { name := "b.mp4", path := "/s/b.mp4", size := 2, hash := some "h" }]⟩

/-- **C10 (counterexample).** In the part_000 variant, when the upload
succeeds but the move to the transferred folder fails, the completed record
is kept but the unit is counted in `sessionStats.failed`, not
`sessionStats.uploaded` — against the claim that it is "still counted as
successful". -/
theorem move_failure_counted_failed_counterexample :
    (S3A.processFiles "bkt" (fun _ => some "h") (fun _ => true) (fun _ => false)
      S3A.freshProgress
      [{ name := "a.mp4", path := "/s/a.mp4", size := 100,
         hash := some "h" }]).stats.uploaded = 0 ∧
    (S3A.processFiles "bkt" (fun _ => some "h") (fun _ => true) (fun _ => false)
      S3A.freshProgress
      [{ name := "a.mp4", path := "/s/a.mp4", size := 100,
         hash := some "h" }]).stats.failed = 1 ∧
    (S3A.processFiles "bkt" (fun _ => some "h") (fun _ => true) (fun _ => false)
      S3A.freshProgress
      [{ name := "a.mp4", path := "/s/a.mp4", size := 100,
         hash := some "h" }]).outcomes =
      [("a.mp4", S3A.FileOutcome.uploadedMoveFailed)] ∧
    Ytd.lookupAssoc
      (S3A.processFiles "bkt" (fun _ => some "h") (fun _ => true)
        (fun _ => false) S3A.freshProgress
        [{ name := "a.mp4", path := "/s/a.mp4", size := 100,
           hash := some "h" }]).progress.uploadedFiles "a.mp4" =
      some { s3Key := "media/a.mp4", fileSizeBytes := 100, fileHash := some "h",
             status := "completed", bucket := "bkt" } :=
  ⟨rfl, rfl, rfl, rfl⟩

/-- **C10 (amended).** When a unit's upload succeeds but the secondary
relocation fails, the persisted completed record remains recorded in both
variants; the `s3Uploader.js` (delete) variant still counts the unit as
uploaded, while the part_000 (move) variant counts it in the session's
`failed` counter (the warning is logged in both). -/
theorem upload_record_retention (bucketName : String)
    (hashOf : String → Option String) (uploadOk moveOk : String → Bool)
    (progress0 : S3A.Progress) (mediaFiles : List S3A.MediaFile)
    (uploadOkB deleteOk : String → Bool) (progress0b : S3B.Progress)
    (history0 : S3B.UploadHistory) (mediaFilesB : List S3B.MediaFile)
    (name nameB : String) :
    ((name, S3A.FileOutcome.uploadedMoveFailed) ∈
        (S3A.processFiles bucketName hashOf uploadOk moveOk progress0
          mediaFiles).outcomes →
      ∃ r, Ytd.lookupAssoc
          (S3A.processFiles bucketName hashOf uploadOk moveOk progress0
            mediaFiles).progress.uploadedFiles name = some r ∧
        r.status = "completed") ∧
    (S3A.processFiles bucketName hashOf uploadOk moveOk progress0
        mediaFiles).stats.uploaded =
      (S3A.processFiles bucketName hashOf uploadOk moveOk progress0
        mediaFiles).outcomes.countP
        (fun q => q.2 == S3A.FileOutcome.uploadedMoved) ∧
    (S3A.processFiles bucketName hashOf uploadOk moveOk progress0
        mediaFiles).stats.failed =
      (S3A.processFiles bucketName hashOf uploadOk moveOk progress0
        mediaFiles).outcomes.countP
        (fun q => q.2 == S3A.FileOutcome.uploadFailed ||
          q.2 == S3A.FileOutcome.uploadedMoveFailed) ∧
    ((nameB, S3B.FileOutcome.uploadedDeleteFailed) ∈
        (S3B.processFiles bucketName uploadOkB deleteOk progress0b history0
          mediaFilesB).outcomes →
      (∃ r, Ytd.lookupAssoc
          (S3B.processFiles bucketName uploadOkB deleteOk progress0b history0
            mediaFilesB).progress.uploadedFiles nameB = some r ∧
        r.status = "completed") ∧
      (∃ r, Ytd.lookupAssoc
          (S3B.processFiles bucketName uploadOkB deleteOk progress0b history0
            mediaFilesB).history.files nameB = some r ∧
        r.status = "completed")) ∧
    (S3B.processFiles bucketName uploadOkB deleteOk progress0b history0
        mediaFilesB).stats.uploaded =
      (S3B.processFiles bucketName uploadOkB deleteOk progress0b history0
        mediaFilesB).outcomes.countP
        (fun q => q.2 == S3B.FileOutcome.uploadedDeleted ||
          q.2 == S3B.FileOutcome.uploadedDeleteFailed) ∧
    (S3B.processFiles bucketName uploadOkB deleteOk progress0b history0
        mediaFilesB).stats.deleted =
      (S3B.processFiles bucketName uploadOkB deleteOk progress0b history0
        mediaFilesB).outcomes.countP
        (fun q => q.2 == S3B.FileOutcome.uploadedDeleted) := by
  have hA : ∀ (P : S3A.ProcState → Prop),
      (P { progress := progress0, stats := S3A.freshStats, outcomes := [] }) →
      (P { progress :=
            { progress0 with session :=
              { progress0.session with totalFiles := mediaFiles.length } }
           stats := S3A.freshStats, outcomes := [] }) →
      (P ((S3A.unprocessedFiles hashOf
            { progress0 with session :=
              { progress0.session with totalFiles := mediaFiles.length } }
            mediaFiles).foldl
          (S3A.processStep bucketName hashOf uploadOk moveOk)
          { progress :=
              { progress0 with session :=
                { progress0.session with totalFiles := mediaFiles.length } }
            stats := S3A.freshStats, outcomes := [] })) →
      P (S3A.processFiles bucketName hashOf uploadOk moveOk progress0
        mediaFiles) := by
    intro P h1 h2 h3
    simp only [S3A.processFiles]
    split
    · exact h1
    · split
      · exact h2
      · exact h3
  have hB : ∀ (P : S3B.ProcState → Prop),
      (P { progress := progress0b, history := history0, stats := S3B.freshStats,
           outcomes := [] }) →
      (P { progress := progress0b, history := history0
           stats := { S3B.freshStats with skipped := (mediaFilesB.filter
             (fun file => S3B.isFileInHistory history0 file.name
               file.hash)).length }
           outcomes := [] }) →
      (P ((S3B.newFiles history0 mediaFilesB).foldl
          (S3B.processStep bucketName uploadOkB deleteOk)
          { progress :=
              { progress0b with session :=
                { progress0b.session with
                  totalFiles := (S3B.newFiles history0 mediaFilesB).length } }
            history := history0
            stats := { S3B.freshStats with skipped := (mediaFilesB.filter
              (fun file => S3B.isFileInHistory history0 file.name
                file.hash)).length }
            outcomes := [] })) →
      P (S3B.processFiles bucketName uploadOkB deleteOk progress0b history0
        mediaFilesB) := by
    intro P h1 h2 h3
    simp only [S3B.processFiles]
    split
    · exact h1
    · split
      · exact h2
      · exact h3
  refine ⟨?_, ?_, ?_, ?_, ?_, ?_⟩
  · refine hA (fun R =>
      (name, S3A.FileOutcome.uploadedMoveFailed) ∈ R.outcomes →
        ∃ r, Ytd.lookupAssoc R.progress.uploadedFiles name = some r ∧
          r.status = "completed") ?_ ?_ ?_
    · intro h
      exact absurd h (List.not_mem_nil _)
    · intro h
      exact absurd h (List.not_mem_nil _)
    · intro h
      exact S3A.processLoop_retention bucketName hashOf uploadOk moveOk _ _
        (by
          intro nm hnm
          rcases hnm with h' | h' <;> exact absurd h' (List.not_mem_nil _))
        name (Or.inr h)
  · refine hA (fun R => R.stats.uploaded = R.outcomes.countP
      (fun q => q.2 == S3A.FileOutcome.uploadedMoved)) rfl rfl ?_
    exact (S3A.processLoop_stats bucketName hashOf uploadOk moveOk _ _
      rfl rfl rfl).1
  · refine hA (fun R => R.stats.failed = R.outcomes.countP
      (fun q => q.2 == S3A.FileOutcome.uploadFailed ||
        q.2 == S3A.FileOutcome.uploadedMoveFailed)) rfl rfl ?_
    exact (S3A.processLoop_stats bucketName hashOf uploadOk moveOk _ _
      rfl rfl rfl).2.1
  · refine hB (fun R =>
      (nameB, S3B.FileOutcome.uploadedDeleteFailed) ∈ R.outcomes →
        (∃ r, Ytd.lookupAssoc R.progress.uploadedFiles nameB = some r ∧
          r.status = "completed") ∧
        (∃ r, Ytd.lookupAssoc R.history.files nameB = some r ∧
          r.status = "completed")) ?_ ?_ ?_
    · intro h
      exact absurd h (List.not_mem_nil _)
    · intro h
      exact absurd h (List.not_mem_nil _)
    · intro h
      exact S3B.processLoop_retention_delete bucketName uploadOkB deleteOk _ _
        (by
          intro nm hnm
          rcases hnm with h' | h' <;> exact absurd h' (List.not_mem_nil _))
        nameB (Or.inr h)
  · refine hB (fun R => R.stats.uploaded = R.outcomes.countP
      (fun q => q.2 == S3B.FileOutcome.uploadedDeleted ||
        q.2 == S3B.FileOutcome.uploadedDeleteFailed)) rfl rfl ?_
    exact (S3B.processLoop_stats_delete bucketName uploadOkB deleteOk _ _
      rfl rfl rfl).1
  · refine hB (fun R => R.stats.deleted = R.outcomes.countP
      (fun q => q.2 == S3B.FileOutcome.uploadedDeleted)) rfl rfl ?_
    exact (S3B.processLoop_stats_delete bucketName uploadOkB deleteOk _ _
      rfl rfl rfl).2.1

/-- Witness for C10: one-file runs with a failing move (part_000) and a
failing delete (`s3Uploader.js`) keep their completed records; the delete
variant still counts the unit uploaded. -/
theorem upload_record_retention_witness :
    (∃ r, Ytd.lookupAssoc
        (S3A.processFiles "bkt" (fun _ => some "h") (fun _ => true)
          (fun _ => false) S3A.freshProgress
          [{ name := "a.mp4", path := "/s/a.mp4", size := 100,
             hash := some "h" }]).progress.uploadedFiles "a.mp4" = some r ∧
      r.status = "completed") ∧
    (∃ r, Ytd.lookupAssoc
        (S3B.processFiles "bkt" (fun _ => true) (fun _ => false)
          S3B.freshProgress
          { files := [], metadata := { totalUploads := 0, totalSizeUploaded := 0 } }
          [{ name := "c.mp4", path := "/s/c.mp4", size := 7,
             hash := some "h" }]).progress.uploadedFiles "c.mp4" = some r ∧
      r.status = "completed") ∧
    (S3B.processFiles "bkt" (fun _ => true) (fun _ => false)
        S3B.freshProgress
        { files := [], metadata := { totalUploads := 0, totalSizeUploaded := 0 } }
        [{ name := "c.mp4", path := "/s/c.mp4", size := 7,
           hash := some "h" }]).stats.uploaded =
      (S3B.processFiles "bkt" (fun _ => true) (fun _ => false)
        S3B.freshProgress
        { files := [], metadata := { totalUploads := 0, totalSizeUploaded := 0 } }
        [{ name := "c.mp4", path := "/s/c.mp4", size := 7,
           hash := some "h" }]).outcomes.countP
        (fun q => q.2 == S3B.FileOutcome.uploadedDeleted ||
          q.2 == S3B.FileOutcome.uploadedDeleteFailed) :=
  ⟨(upload_record_retention "bkt" (fun _ => some "h") (fun _ => true)
      (fun _ => false) S3A.freshProgress
      [{ name := "a.mp4", path := "/s/a.mp4", size := 100, hash := some "h" }]
      (fun _ => true) (fun _ => false) S3B.freshProgress
      { files := [], metadata := { totalUploads := 0, totalSizeUploaded := 0 } }
      [{ name := "c.mp4", path := "/s/c.mp4", size := 7, hash := some "h" }]
      "a.mp4" "c.mp4").1 (by decide),
   ((upload_record_retention "bkt" (fun _ => some "h") (fun _ => true)
      (fun _ => false) S3A.freshProgress
      [{ name := "a.mp4", path := "/s/a.mp4", size := 100, hash := some "h" }]
      (fun _ => true) (fun _ => false) S3B.freshProgress
      { files := [], metadata := { totalUploads := 0, totalSizeUploaded := 0 } }
      [{ name := "c.mp4", path := "/s/c.mp4", size := 7, hash := some "h" }]
      "a.mp4" "c.mp4").2.2.2.1 (by decide)).1,
   (upload_record_retention "bkt" (fun _ => some "h") (fun _ => true)
      (fun _ => false) S3A.freshProgress
      [{ name := "a.mp4", path := "/s/a.mp4", size := 100, hash := some "h" }]
      (fun _ => true) (fun _ => false) S3B.freshProgress
      { files := [], metadata := { totalUploads := 0, totalSizeUploaded := 0 } }
      [{ name := "c.mp4", path := "/s/c.mp4", size := 7, hash := some "h" }]
      "a.mp4" "c.mp4").2.2.2.2.1⟩
